import Mathlib

/-!
Shallow embedding of the doggy-daycare core (src-tauri/src/lib.rs):
calendar dates (chrono::NaiveDate as used by the code), the data model,
the recurrence evaluator `should_generate_attendance`, the attendance
materializer `generate_recurring_attendance_internal`, the dog-edit cycle
`update_dog` with `clear_future_attendance_for_dog`, the cleaner
`clear_auto_generated_attendance`, the locked read-modify-write wrapper
`with_app_data_mut`, and the schema migration performed by
`load_app_data_from_disk` on strict-decode failure.

Rust `HashMap<String, _>` is modelled as an association list whose
operations replace in place (`hmInsert`) or filter (`hmErase`, retain);
map-valued state is compared extensionally where the claims compare
HashMap values.
-/

set_option maxHeartbeats 1000000
set_option maxRecDepth 16384

namespace DoggyDaycare

/-- A calendar date, mirroring `chrono::NaiveDate` as a year/month/day triple. -/
structure Date where
  y : Nat
  m : Nat
  d : Nat
deriving DecidableEq, Repr

/-- Gregorian leap-year test. -/
def isLeap (y : Nat) : Bool :=
  y % 4 == 0 && (y % 100 != 0 || y % 400 == 0)

/-- Number of days in the given month of the given year. -/
def daysInMonth (y m : Nat) : Nat :=
  if m == 2 then (if isLeap y then 29 else 28)
  else if m == 4 || m == 6 || m == 9 || m == 11 then 30
  else 31

/-- The next calendar day (`NaiveDate::succ_opt`, away from the MAX boundary). -/
def succDate (dt : Date) : Date :=
  if dt.d < daysInMonth dt.y dt.m then ⟨dt.y, dt.m, dt.d + 1⟩
  else if dt.m < 12 then ⟨dt.y, dt.m + 1, 1⟩
  else ⟨dt.y + 1, 1, 1⟩

/-- The previous calendar day (`NaiveDate::pred_opt`, away from the MIN boundary). -/
def predDate (dt : Date) : Date :=
  if 1 < dt.d then ⟨dt.y, dt.m, dt.d - 1⟩
  else if 1 < dt.m then ⟨dt.y, dt.m - 1, daysInMonth dt.y (dt.m - 1)⟩
  else ⟨dt.y - 1, 12, 31⟩

/-- `NaiveDate::succ_opt`: `none` only at `NaiveDate::MAX`, which no claim reaches. -/
def succOpt (dt : Date) : Option Date := some (succDate dt)

/-- `NaiveDate::pred_opt`: `none` only at `NaiveDate::MIN`, which no claim reaches. -/
def predOpt (dt : Date) : Option Date := some (predDate dt)

/-- `date.with_day(1).unwrap()`: day 1 is valid in every month. -/
def withDay1 (dt : Date) : Date := ⟨dt.y, dt.m, 1⟩

/-- Day count since 1970-01-01 (the civil-from-days algorithm chrono uses
internally). All intermediate divisions act on non-negative operands for the
years the program handles, so `Int` division conventions do not matter. -/
def toDayNumber (dt : Date) : Int :=
  let y : Int := if dt.m ≤ 2 then (dt.y : Int) - 1 else (dt.y : Int)
  let era : Int := (if 0 ≤ y then y else y - 399) / 400
  let yoe : Int := y - era * 400
  let mp : Int := ((dt.m + 9) % 12 : Nat)
  let doy : Int := (153 * mp + 2) / 5 + (dt.d : Int) - 1
  let doe : Int := yoe * 365 + yoe / 4 - yoe / 100 + doy
  era * 146097 + doe - 719468

/-- Weekday as 0-6 with Sunday = 0 (the mapping of `get_weekday_index`;
1970-01-01 was a Thursday, index 4). -/
def get_weekday_index (dt : Date) : Nat :=
  ((toDayNumber dt + 4) % 7).toNat

/-- `a.signed_duration_since(b).num_days()`. -/
def daysBetween (a b : Date) : Int := toDayNumber a - toDayNumber b

/-- Strict date order (lexicographic, as `NaiveDate`'s `Ord`). -/
def dateLt (a b : Date) : Bool :=
  a.y < b.y || (a.y == b.y && (a.m < b.m || (a.m == b.m && a.d < b.d)))

/-- Non-strict date order. -/
def dateLe (a b : Date) : Bool := dateLt a b || a == b

/-- `std::cmp::min` on dates. -/
def dateMin (a b : Date) : Date := if dateLe a b then a else b

/-- `std::cmp::max` on dates. -/
def dateMax (a b : Date) : Date := if dateLe a b then b else a

/-- `date + chrono::Duration::days(n)` for a non-negative count. -/
def addDays (dt : Date) (n : Nat) : Date := succDate^[n] dt

/-- Zero-pad a number to two digits, as chrono's `%m` / `%d` format. -/
def pad2 (n : Nat) : String := if n < 10 then "0" ++ toString n else toString n

/-- Zero-pad a number to four digits, as chrono's `%Y` format. -/
def pad4 (n : Nat) : String :=
  if n < 10 then "000" ++ toString n
  else if n < 100 then "00" ++ toString n
  else if n < 1000 then "0" ++ toString n
  else toString n

/-- `date.format("%Y-%m-%d").to_string()`. -/
def formatDate (dt : Date) : String :=
  pad4 dt.y ++ "-" ++ pad2 dt.m ++ "-" ++ pad2 dt.d

/-- Numeric value of a decimal digit character. -/
def digitVal (c : Char) : Option Nat :=
  if c.isDigit then some (c.toNat - 48) else none

/-- Decimal reading of a non-empty digit string. -/
def digitsToNat? (cs : List Char) : Option Nat :=
  match cs with
  | [] => none
  | _ => cs.foldl (fun acc c => acc.bind (fun a => (digitVal c).map (fun v => a * 10 + v))) (some 0)

/-- Split a character list on the dash separator. -/
def splitDash : List Char → List (List Char)
  | [] => [[]]
  | c :: rest =>
    let r := splitDash rest
    if c = '-' then [] :: r
    else
      match r with
      | [] => [[c]]
      | h :: t => (c :: h) :: t

/-- `NaiveDate::parse_from_str(s, "%Y-%m-%d")`: three dash-separated decimal
fields forming a valid calendar date. -/
def parseDate (s : String) : Option Date :=
  match splitDash s.toList with
  | [ys, ms, ds] =>
    match digitsToNat? ys, digitsToNat? ms, digitsToNat? ds with
    | some y, some m, some d =>
      if 1 ≤ m ∧ m ≤ 12 ∧ 1 ≤ d ∧ d ≤ daysInMonth y m then some ⟨y, m, d⟩ else none
    | _, _, _ => none
  | _ => none

/-- Association-list model of `HashMap String α`. -/
abbrev HMap (α : Type) := List (String × α)

/-- `HashMap::get` (first binding of the key). -/
def hmGet {α : Type} : HMap α → String → Option α
  | [], _ => none
  | (k', v) :: rest, k => if k' = k then some v else hmGet rest k

/-- `HashMap::contains_key`. -/
def hmContains {α : Type} (m : HMap α) (k : String) : Bool := (hmGet m k).isSome

/-- `HashMap::insert`: replace the binding in place, or append a fresh one. -/
def hmInsert {α : Type} : HMap α → String → α → HMap α
  | [], k, v => [(k, v)]
  | (k', v') :: rest, k, v =>
    if k' = k then (k, v) :: rest else (k', v') :: hmInsert rest k v

/-- `HashMap::remove`: drop every binding of the key. -/
def hmErase {α : Type} (m : HMap α) (k : String) : HMap α :=
  m.filter (fun p => decide (p.1 ≠ k))

/-- Character-list version of string prefix testing. -/
def isPrefixOfCl : List Char → List Char → Bool
  | [], _ => true
  | _ :: _, [] => false
  | a :: as, b :: bs => a == b && isPrefixOfCl as bs

/-- Substring test (`str::contains`). -/
def isInfixOfCl (pat : List Char) : List Char → Bool
  | [] => isPrefixOfCl pat []
  | c :: rest => isPrefixOfCl pat (c :: rest) || isInfixOfCl pat rest

/-- Rust `haystack.contains(needle)` on strings. -/
def strContains (s pat : String) : Bool := isInfixOfCl pat.toList s.toList

/-- Rust `s.starts_with(pre)` on strings. -/
def strStartsWith (s pre : String) : Bool := isPrefixOfCl pre.toList s.toList

/-- Per-service weekly selections embedded in a dog (struct `DogSchedule`). -/
structure DogSchedule where
  daycare_days : List Nat
  training_days : List Nat
  boarding_days : List Nat
  daycare_drop_off : Option String
  daycare_pick_up : Option String
  training_drop_off : Option String
  training_pick_up : Option String
  start_date : Option String
  end_date : Option String
  active : Bool
deriving DecidableEq, Repr

/-- `DogSchedule::default()`. -/
def DogSchedule.default : DogSchedule :=
  ⟨[], [], [], none, none, none, none, none, none, true⟩

/-- A dog record (struct `Dog`); `created_at : Int` stands for the
`DateTime<Utc>` timestamp, which no claim inspects. -/
structure Dog where
  id : String
  name : String
  owner : String
  phone : String
  email : String
  breed : String
  date_of_birth : Option String
  vaccine_date : Option String
  consent_last_signed : Option String
  created_at : Int
  schedule : DogSchedule
  household_id : Option String
deriving DecidableEq, Repr

/-- Free-text per-day record for a dog (struct `DailyRecord`); the checklist
is a string-keyed boolean map. -/
structure DailyRecord where
  checklist : Option (HMap Bool)
  feeding_times : Option String
  drop_off_time : Option String
  pick_up_time : Option String
  notes : Option String
deriving DecidableEq, Repr

/-- The empty daily record the materializer creates on demand. -/
def DailyRecord.empty : DailyRecord := ⟨none, none, none, none, none⟩

/-- Service category (enum `ServiceType`). -/
inductive ServiceType where
  | Daycare
  | Training
  | Boarding
deriving DecidableEq, Repr

/-- The `Debug` rendering of a service type, as used in entry keys. -/
def serviceTypeName : ServiceType → String
  | .Daycare => "Daycare"
  | .Training => "Training"
  | .Boarding => "Boarding"

/-- Attendance-type classification (enum `AttendanceType`). -/
inductive AttendanceType where
  | NotAttending
  | HalfDay
  | FullDay
deriving DecidableEq, Repr

/-- Recurrence pattern (enum `RecurrencePattern`); `Custom` carries a
weekday set, 0-6 Sunday-first. -/
inductive RecurrencePattern where
  | None
  | Daily
  | Weekly
  | BiWeekly
  | Monthly
  | Custom (days : List Nat)
deriving DecidableEq, Repr

/-- A detailed attendance entry (struct `AttendanceEntry`). -/
structure AttendanceEntry where
  dog_id : String
  service_type : ServiceType
  attending : Bool
  drop_off_time : Option String
  pick_up_time : Option String
  notes : Option String
deriving DecidableEq, Repr

/-- A derived recurring schedule (struct `RecurringSchedule`). -/
structure RecurringSchedule where
  id : String
  dog_id : String
  service_type : ServiceType
  pattern : RecurrencePattern
  start_date : String
  end_date : Option String
  drop_off_time : Option String
  pick_up_time : Option String
  active : Bool
  created_at : Int
deriving DecidableEq, Repr

/-- The entry key `format!("{}_{:?}", dog_id, service_type)`. -/
def entryKeyOf (dog_id : String) (st : ServiceType) : String :=
  dog_id ++ "_" ++ serviceTypeName st

/-- The entry key a schedule writes under. -/
def schedKey (s : RecurringSchedule) : String := entryKeyOf s.dog_id s.service_type

/-- Attendance state of one day (struct `DayAttendance`): the legacy boolean
map, the detailed entry map, and the attendance-type map. -/
structure DayAttendance where
  dogs : HMap Bool
  entries : HMap AttendanceEntry
  types : HMap AttendanceType
deriving DecidableEq, Repr

/-- Everything stored for one date (struct `DayData`). -/
structure DayData where
  attendance : DayAttendance
  records : HMap DailyRecord
  am_temp : Option String
  pm_temp : Option String
deriving DecidableEq, Repr

/-- The empty `DayData` the commands create on first touch of a date. -/
def DayData.empty : DayData := ⟨⟨[], [], []⟩, [], none, none⟩

/-- Business message templates (structs `EmailTemplate`, `EmailSubject`,
`WhatsAppTemplate` share this shape). -/
structure MsgTemplate where
  consent_form : String
  vaccine_reminder : String
deriving DecidableEq, Repr

/-- Cloud backup configuration (struct `CloudBackupConfig`). -/
structure CloudBackupConfig where
  enabled : Bool
  cloud_directory : String
  max_backups : Nat
  sync_interval_minutes : Nat
deriving DecidableEq, Repr

/-- Application settings (struct `Settings`). -/
structure Settings where
  business_name : String
  business_phone : String
  auto_backup : Bool
  cloud_backup : Option CloudBackupConfig
  email_templates : MsgTemplate
  email_subjects : MsgTemplate
  whatsapp_templates : MsgTemplate
deriving DecidableEq, Repr

/-- The whole persisted document (struct `AppData`). -/
structure AppData where
  dogs : List Dog
  daily_data : HMap DayData
  recurring_schedules : List RecurringSchedule
  settings : Settings
deriving DecidableEq, Repr

/-- Recurrence evaluator `should_generate_attendance`: does `pattern`,
anchored at `schedule_start`, produce an occurrence on `current_date`?
`Weekly` and `BiWeekly` compare `chrono::Weekday` values, rendered here
through the injective index mapping `get_weekday_index`; the bound
`days_since_start >= 0` is checked before the remainder is taken, so Rust
`%` and `Int.emod` agree. -/
def should_generate_attendance (current_date schedule_start : Date)
    (pattern : RecurrencePattern) : Bool :=
  match pattern with
  | .None => false
  | .Daily => true
  | .Weekly => get_weekday_index current_date == get_weekday_index schedule_start
  | .BiWeekly =>
    if get_weekday_index current_date == get_weekday_index schedule_start then
      let days_since_start := daysBetween current_date schedule_start
      decide (0 ≤ days_since_start) && days_since_start % 14 == 0
    else false
  | .Monthly =>
    let start_day := schedule_start.d
    let current_month_last_day :=
      ((((succOpt (withDay1 current_date)).bind predOpt).map Date.d).getD 31)
    let target_day := min start_day current_month_last_day
    current_date.d == target_day
  | .Custom days => days.contains (get_weekday_index current_date)

/-- The machine-generated entry a firing schedule inserts. -/
def autoEntry (sched : RecurringSchedule) : AttendanceEntry :=
  ⟨sched.dog_id, sched.service_type, true, sched.drop_off_time,
    sched.pick_up_time, some "Auto-scheduled"⟩

/-- The daily record a firing Daycare schedule leaves for its dog: the
existing record (or a fresh one) with the schedule's times written over the
drop-off/pick-up fields it specifies. -/
def fireRec (sched : RecurringSchedule) (day : DayData) : DailyRecord :=
  let rec0 := (hmGet day.records sched.dog_id).getD DailyRecord.empty
  let rec1 := match sched.drop_off_time with
    | some t => { rec0 with drop_off_time := some t }
    | none => rec0
  match sched.pick_up_time with
  | some t => { rec1 with pick_up_time := some t }
  | none => rec1

/-- The `should_attend` block of `generate_recurring_attendance_internal`,
acting on the day it targets: skip when the entry key is already present,
otherwise insert the auto entry, and for Daycare also raise the legacy flag
and write the schedule's times into the dog's daily record. -/
def fireDay (sched : RecurringSchedule) (day : DayData) : DayData :=
  let key := schedKey sched
  if hmContains day.attendance.entries key then day
  else
    let day1 : DayData :=
      { day with attendance :=
          { day.attendance with entries := hmInsert day.attendance.entries key (autoEntry sched) } }
    if sched.service_type = ServiceType.Daycare then
      let day2 : DayData :=
        { day1 with attendance :=
            { day1.attendance with dogs := hmInsert day1.attendance.dogs sched.dog_id true } }
      if sched.drop_off_time.isSome || sched.pick_up_time.isSome then
        { day2 with records := hmInsert day2.records sched.dog_id (fireRec sched day) }
      else day2
    else day1

/-- Occurrence handling for one (date, schedule) pair: fetch or create the
date's `DayData` (the `entry(..).or_insert_with` step) and run `fireDay`. -/
def fireSchedule (dateStr : String) (sched : RecurringSchedule) (doc : AppData) : AppData :=
  let day := (hmGet doc.daily_data dateStr).getD DayData.empty
  { doc with daily_data := hmInsert doc.daily_data dateStr (fireDay sched day) }

/-- One schedule's turn in the inner loop of
`generate_recurring_attendance_internal`: inactive schedules are skipped, the
anchor (and, when set and non-blank, the end bound) is parsed with `?`-style
error propagation, out-of-bounds dates are skipped, and an occurrence fires. -/
def processSchedule (cur : Date) (dateStr : String) (doc : AppData)
    (sched : RecurringSchedule) : Except String AppData :=
  if sched.active = false then .ok doc
  else
    match parseDate sched.start_date with
    | none => .error ("Invalid schedule start date " ++ sched.start_date)
    | some schedStart =>
      if dateLt cur schedStart then .ok doc
      else
        let step3 : Except String AppData :=
          if should_generate_attendance cur schedStart sched.pattern then
            .ok (fireSchedule dateStr sched doc)
          else .ok doc
        match sched.end_date with
        | some s =>
          if s ≠ "" then
            match parseDate s with
            | none => .error ("Invalid schedule end date " ++ s)
            | some schedEnd => if dateLt schedEnd cur then .ok doc else step3
          else step3
        | none => step3

/-- The inner `for schedule in &data.recurring_schedules` loop for one date. -/
def processDate (cur : Date) (dateStr : String) (scheds : List RecurringSchedule)
    (doc : AppData) : Except String AppData :=
  match scheds with
  | [] => .ok doc
  | s :: rest =>
    match processSchedule cur dateStr doc s with
    | .error e => .error e
    | .ok doc' => processDate cur dateStr rest doc'

/-- The dated `while current_date <= end` loop, driven by a fuel counter that
`generate_recurring_attendance_internal` sizes to the whole range. -/
def genLoop (fuel : Nat) (cur e : Date) (doc : AppData) : Except String AppData :=
  match fuel with
  | 0 => .ok doc
  | fuel' + 1 =>
    if dateLe cur e then
      match processDate cur (formatDate cur) doc.recurring_schedules doc with
      | .error err => .error err
      | .ok doc' => genLoop fuel' (succDate cur) e doc'
    else .ok doc

/-- The attendance materializer `generate_recurring_attendance_internal`. -/
def generate_recurring_attendance_internal (doc : AppData)
    (start_date end_date : String) : Except String AppData :=
  match parseDate start_date with
  | none => .error "Invalid start date format"
  | some s =>
    match parseDate end_date with
    | none => .error "Invalid end date format"
    | some e => genLoop (daysBetween e s + 1).toNat s e doc

/-- Machine-generated note test used by `clear_auto_generated_attendance`. -/
def entryIsAutoNote (e : AttendanceEntry) : Bool :=
  match e.notes with
  | none => false
  | some n =>
    strContains n "Auto-generated" || strContains n "Scheduled (not confirmed)" ||
      strContains n "Auto-scheduled"

/-- The per-day retain of `clear_auto_generated_attendance`. -/
def clearAutoDay (day : DayData) : DayData :=
  { day with attendance :=
      { day.attendance with entries :=
          day.attendance.entries.filter (fun q => !entryIsAutoNote q.2) } }

/-- Command `clear_auto_generated_attendance`: retain, in every day's entry
map, only entries whose notes carry none of the auto markers. -/
def clear_auto_generated_attendance (doc : AppData) : AppData :=
  { doc with daily_data := doc.daily_data.map (fun p => (p.1, clearAutoDay p.2)) }

/-- The per-day effect of `clear_future_attendance_for_dog` on a date at or
after today: drop entries keyed with the dog's prefix and the legacy flag. -/
def clearDogDay (dogId : String) (day : DayData) : DayData :=
  { day with attendance :=
      { day.attendance with
        entries := day.attendance.entries.filter
          (fun q => !strStartsWith q.1 (dogId ++ "_")),
        dogs := hmErase day.attendance.dogs dogId } }

/-- The keyed per-day effect of `clear_future_attendance_for_dog`: dates that
parse to today or later are cleared for the dog, other dates (and unparsable
keys) are untouched. -/
def clearFutureDayAt (today : Date) (dogId : String) (ds : String) (day : DayData) : DayData :=
  match parseDate ds with
  | some d => if dateLe today d then clearDogDay dogId day else day
  | none => day

/-- `clear_future_attendance_for_dog` (the `retain` walk that edits matching
days in place and keeps every date). -/
def clear_future_attendance_for_dog (today : Date) (dogId : String) (doc : AppData) : AppData :=
  { doc with daily_data := doc.daily_data.map (fun p =>
      (p.1, clearFutureDayAt today dogId p.1 p.2)) }

/-- Schedule factory `generate_schedules_for_dog`: one `Custom` schedule per
service with a non-empty weekday list; `ids` supplies the three fresh UUIDs
and `nowTs` the creation timestamp. -/
def generate_schedules_for_dog (today : Date) (ids : ServiceType → String) (nowTs : Int)
    (dog : Dog) (doc : AppData) : AppData :=
  if dog.schedule.active = false then doc
  else
    let start_date :=
      match dog.schedule.start_date with
      | some s => if s = "" then formatDate today else s
      | none => formatDate today
    let mk (st : ServiceType) (days : List Nat) (dropOff pickUp : Option String) :
        RecurringSchedule :=
      ⟨ids st, dog.id, st, .Custom days, start_date, dog.schedule.end_date,
        dropOff, pickUp, true, nowTs⟩
    let withDaycare :=
      if dog.schedule.daycare_days ≠ [] then
        [mk .Daycare dog.schedule.daycare_days dog.schedule.daycare_drop_off
          dog.schedule.daycare_pick_up]
      else []
    let withTraining :=
      if dog.schedule.training_days ≠ [] then
        [mk .Training dog.schedule.training_days dog.schedule.training_drop_off
          dog.schedule.training_pick_up]
      else []
    let withBoarding :=
      if dog.schedule.boarding_days ≠ [] then
        [mk .Boarding dog.schedule.boarding_days none none]
      else []
    { doc with recurring_schedules :=
        doc.recurring_schedules ++ withDaycare ++ withTraining ++ withBoarding }

/-- `data.dogs[index] = dog` where `index` is the first position whose id
matches. -/
def replaceDog : List Dog → Dog → List Dog
  | [], _ => []
  | d :: rest, dog => if d.id = dog.id then dog :: rest else d :: replaceDog rest dog

/-- The materialization window lower bound used by dog add/edit:
`min(today, schedule start)`, today when the start date is absent, blank or
unparsable. -/
def generationStart (today : Date) (dog : Dog) : Date :=
  match dog.schedule.start_date with
  | some s => if s = "" then today else dateMin today ((parseDate s).getD today)
  | none => today

/-- The materialization window upper bound used by dog add/edit:
`max(today + 30 days, schedule end)`, today + 30 when the end date is absent,
blank or unparsable. -/
def generationEnd (today : Date) (dog : Dog) : Date :=
  match dog.schedule.end_date with
  | some s =>
    if s = "" then addDays today 30
    else dateMax (addDays today 30) ((parseDate s).getD (addDays today 30))
  | none => addDays today 30

/-- Command `update_dog`: replace the dog, drop its recurring schedules,
clear its future attendance, regenerate schedules, and re-materialize the
default window; errors when the id is unknown. `today`, `ids` and `nowTs`
stand for `Utc::now()` and the fresh UUIDs. -/
def update_dog (today : Date) (ids : ServiceType → String) (nowTs : Int)
    (dog : Dog) (doc : AppData) : Except String AppData :=
  if doc.dogs.any (fun d => d.id == dog.id) then
    let doc1 := { doc with recurring_schedules :=
        doc.recurring_schedules.filter (fun s => decide (s.dog_id ≠ dog.id)) }
    let doc2 := clear_future_attendance_for_dog today dog.id doc1
    let doc3 := { doc2 with dogs := replaceDog doc2.dogs dog }
    let doc4 := generate_schedules_for_dog today ids nowTs dog doc3
    generate_recurring_attendance_internal doc4
      (formatDate (generationStart today dog)) (formatDate (generationEnd today dog))
  else .error "Dog not found"

/-- Command `update_recurring_schedule`: replace the schedule with the
matching id, or fail. -/
def update_recurring_schedule (sched : RecurringSchedule) (doc : AppData) :
    Except String AppData :=
  if doc.recurring_schedules.any (fun s => s.id == sched.id) then
    .ok { doc with recurring_schedules :=
      (fun l => replaceSched l) doc.recurring_schedules }
  else .error "Schedule not found"
where
  replaceSched : List RecurringSchedule → List RecurringSchedule
    | [] => []
    | s :: rest => if s.id = sched.id then sched :: rest else s :: replaceSched rest

/-- Removal of the first schedule whose id matches (`Vec::remove` at the
found position). -/
def removeSchedById : List RecurringSchedule → String → List RecurringSchedule
  | [], _ => []
  | s :: rest, sid => if s.id = sid then rest else s :: removeSchedById rest sid

/-- Command `delete_recurring_schedule`. -/
def delete_recurring_schedule (sid : String) (doc : AppData) : Except String AppData :=
  if doc.recurring_schedules.any (fun s => s.id == sid) then
    .ok { doc with recurring_schedules := removeSchedById doc.recurring_schedules sid }
  else .error "Schedule not found"

/-- The locked read-modify-write cycle `with_app_data_mut`, with the on-disk
document as explicit state: the mutated document is persisted only when the
mutator succeeds; on error the stored document is untouched. The command's
return value is abstracted to the mutated document. -/
def with_app_data_mut (stored : AppData) (mutator : AppData → Except String AppData) :
    Except String AppData × AppData :=
  match mutator stored with
  | .ok d => (.ok d, d)
  | .error e => (.error e, stored)

/-! Association-list map lemmas. -/

theorem hmGet_insert {α : Type} (m : HMap α) (k k' : String) (v : α) :
    hmGet (hmInsert m k v) k' = if k = k' then some v else hmGet m k' := by
  induction m with
  | nil =>
    simp only [hmInsert, hmGet]
  | cons p rest ih =>
    obtain ⟨k₀, v₀⟩ := p
    by_cases h : k₀ = k
    · subst h
      simp only [hmInsert, if_pos rfl, hmGet]
      by_cases h' : k₀ = k' <;> simp [h']
    · simp only [hmInsert, if_neg h, hmGet, ih]
      by_cases h' : k₀ = k'
      · subst h'
        simp only [if_pos rfl]
        have : ¬ k = k₀ := fun hh => h hh.symm
        simp [this]
      · simp [h']

theorem hmGet_insert_same {α : Type} (m : HMap α) (k : String) (v : α) :
    hmGet (hmInsert m k v) k = some v := by
  simp [hmGet_insert]

theorem hmGet_insert_other {α : Type} (m : HMap α) (k k' : String) (v : α) (h : k ≠ k') :
    hmGet (hmInsert m k v) k' = hmGet m k' := by
  simp [hmGet_insert, h]

theorem hmInsert_self {α : Type} (m : HMap α) (k : String) (v : α)
    (h : hmGet m k = some v) : hmInsert m k v = m := by
  induction m with
  | nil => simp [hmGet] at h
  | cons p rest ih =>
    obtain ⟨k₀, v₀⟩ := p
    by_cases hk : k₀ = k
    · subst hk
      simp only [hmGet, if_pos rfl] at h
      simp only [hmInsert, if_pos rfl]
      cases h
      rfl
    · simp only [hmGet, if_neg hk] at h
      simp [hmInsert, hk, ih h]

theorem hmContains_insert {α : Type} (m : HMap α) (k k' : String) (v : α) :
    hmContains (hmInsert m k v) k' = (k == k' || hmContains m k') := by
  by_cases h : k = k'
  · subst h; simp [hmContains, hmGet_insert]
  · simp [hmContains, hmGet_insert, h]

theorem hmGet_filter_key {α : Type} (pk : String → Bool) (m : HMap α) (k : String) :
    hmGet (m.filter (fun q => pk q.1)) k = if pk k then hmGet m k else none := by
  induction m with
  | nil => cases hpk : pk k <;> simp [hmGet, hpk]
  | cons p rest ih =>
    obtain ⟨k₀, v₀⟩ := p
    rw [List.filter_cons]
    by_cases hk : k₀ = k
    · subst hk
      cases hpk : pk k₀ <;> simp [hmGet, hpk, ih]
    · cases hpk : pk k₀ <;> simp [hmGet, hk, hpk, ih]

theorem hmGet_erase {α : Type} (m : HMap α) (k k' : String) :
    hmGet (hmErase m k) k' = if k' = k then none else hmGet m k' := by
  unfold hmErase
  rw [hmGet_filter_key (fun x => decide (x ≠ k))]
  by_cases h : k' = k <;> simp [h]

theorem hmGet_map_pair {α β : Type} (g : String → α → β) (m : HMap α) (k : String) :
    hmGet (m.map (fun p => (p.1, g p.1 p.2))) k = (hmGet m k).map (g k) := by
  induction m with
  | nil => simp [hmGet]
  | cons p rest ih =>
    obtain ⟨k₀, v₀⟩ := p
    by_cases hk : k₀ = k
    · subst hk; simp [hmGet]
    · simp [hmGet, hk, ih]

/-! Claim C1 (Monthly clamping). The last-day-of-month computation
`with_day(1).unwrap().succ_opt().and_then(pred_opt).map(day)` advances the
first of the month by one day and steps back, yielding day 1 of the month, so
the `Monthly` arm fires exactly on the 1st regardless of the anchor. -/

/-- C1: the claim fails on the code. With anchor 2024-01-31 (day-of-month 31)
the Monthly pattern does not fire on 2024-02-29 (the last day of the leap
February) nor on 2024-04-30, but does fire on 2024-02-01 — against the
clamping behaviour stated by the spec and by the code's own comment that a
missing target day should use the last day of the month. -/
theorem C1_monthly_code_bug :
    should_generate_attendance ⟨2024, 2, 29⟩ ⟨2024, 1, 31⟩ .Monthly = false ∧
    should_generate_attendance ⟨2024, 4, 30⟩ ⟨2024, 1, 31⟩ .Monthly = false ∧
    should_generate_attendance ⟨2024, 2, 1⟩ ⟨2024, 1, 31⟩ .Monthly = true := by
  decide

/-- Outside concrete dates: the embedded Monthly arm compares the candidate's
day-of-month against `min anchor.d 1`, so for any anchor with day at least 1
it reduces to `candidate.d == 1`. -/
theorem monthly_fires_only_on_day_one (c a : Date) (h : 1 ≤ a.d) :
    should_generate_attendance c a .Monthly = (c.d == 1) := by
  simp only [should_generate_attendance, succOpt, predOpt, withDay1, succDate, predDate]
  have h31 : daysInMonth c.y c.m = 28 ∨ daysInMonth c.y c.m = 29 ∨
      daysInMonth c.y c.m = 30 ∨ daysInMonth c.y c.m = 31 := by
    unfold daysInMonth
    split
    · split <;> simp
    · split <;> simp
  have hlt : 1 < daysInMonth c.y c.m := by rcases h31 with h' | h' | h' | h' <;> omega
  simp only [if_pos hlt]
  have hmin : min a.d 1 = 1 := by omega
  simp [hmin]

/-- Witness for the general Monthly lemma at a concrete anchor. -/
theorem monthly_fires_only_on_day_one_witness :
    should_generate_attendance ⟨2024, 4, 30⟩ ⟨2024, 1, 31⟩ .Monthly = ((30 : Nat) == 1) :=
  monthly_fires_only_on_day_one ⟨2024, 4, 30⟩ ⟨2024, 1, 31⟩ (by decide)

/-! Characterization of `processSchedule` by three pure tests: whether the
schedule aborts the run with a date-parse error, whether it fires on the
date, and which message it reports. -/

/-- Does this schedule abort materialization on `cur` with a parse error? -/
def schedBad (cur : Date) (s : RecurringSchedule) : Bool :=
  s.active &&
    match parseDate s.start_date with
    | none => true
    | some st =>
      !dateLt cur st &&
        match s.end_date with
        | some e => decide (e ≠ "") && (parseDate e).isNone
        | none => false

/-- Does this schedule produce an occurrence on `cur`? -/
def schedFires (cur : Date) (s : RecurringSchedule) : Bool :=
  s.active &&
    match parseDate s.start_date with
    | none => false
    | some st =>
      !dateLt cur st &&
        match s.end_date with
        | some e =>
          if e ≠ "" then
            match parseDate e with
            | none => false
            | some se => !dateLt se cur && should_generate_attendance cur st s.pattern
          else should_generate_attendance cur st s.pattern
        | none => should_generate_attendance cur st s.pattern

/-- The error message a bad schedule reports. -/
def schedErrMsg (s : RecurringSchedule) : String :=
  match parseDate s.start_date with
  | none => "Invalid schedule start date " ++ s.start_date
  | some _ => "Invalid schedule end date " ++ s.end_date.getD ""

theorem processSchedule_eq (cur : Date) (ds : String) (doc : AppData)
    (s : RecurringSchedule) :
    processSchedule cur ds doc s =
      if schedBad cur s then .error (schedErrMsg s)
      else .ok (if schedFires cur s then fireSchedule ds s doc else doc) := by
  unfold processSchedule schedBad schedFires schedErrMsg
  cases ha : s.active with
  | false => simp
  | true =>
    rw [if_neg (by simp [ha])]
    cases hps : parseDate s.start_date with
    | none => simp
    | some st =>
      dsimp only
      by_cases hlt : dateLt cur st = true
      · simp [hlt]
      · rw [if_neg hlt]
        have hnlt : (!dateLt cur st) = true := by simp [hlt]
        cases hed : s.end_date with
        | none =>
          dsimp only
          by_cases hs : should_generate_attendance cur st s.pattern = true <;>
            simp [hs, hnlt]
        | some e =>
          dsimp only
          by_cases he : e = ""
          · subst he
            by_cases hs : should_generate_attendance cur st s.pattern = true <;>
              simp [hs, hnlt]
          · rw [if_pos (by simpa using he)]
            cases hpe : parseDate e with
            | none => simp [he, hpe, hnlt]
            | some se =>
              dsimp only
              by_cases hle : dateLt se cur = true
              · simp [hle, hpe, he, hnlt]
              · by_cases hs : should_generate_attendance cur st s.pattern = true <;>
                  simp [hs, hle, hpe, he, hnlt]

/-! Entry preservation: materialization never modifies an existing attendance
entry, and never touches the daily record of a dog whose Daycare entry
already exists. `dayEvol`/`docEvol` capture this evolution order. -/

/-- Day evolution during materialization: existing entries keep their values,
and the daily record of a dog whose Daycare entry exists is untouched. -/
def dayEvol (a b : DayData) : Prop :=
  (∀ k v, hmGet a.attendance.entries k = some v → hmGet b.attendance.entries k = some v) ∧
  (∀ dg : String, hmContains a.attendance.entries (entryKeyOf dg .Daycare) = true →
    hmGet b.records dg = hmGet a.records dg)

theorem dayEvol_refl (a : DayData) : dayEvol a a :=
  ⟨fun _ _ h => h, fun _ _ => rfl⟩

theorem dayEvol_trans {a b c : DayData} (h₁ : dayEvol a b) (h₂ : dayEvol b c) :
    dayEvol a c := by
  refine ⟨fun k v h => h₂.1 k v (h₁.1 k v h), fun dg hdg => ?_⟩
  have hb : hmContains b.attendance.entries (entryKeyOf dg .Daycare) = true := by
    unfold hmContains at hdg ⊢
    cases hv : hmGet a.attendance.entries (entryKeyOf dg .Daycare) with
    | none => rw [hv] at hdg; simp at hdg
    | some v => rw [h₁.1 _ v hv]; rfl
  rw [h₂.2 dg hb, h₁.2 dg hdg]

/-- Document evolution during materialization. -/
def docEvol (x y : AppData) : Prop :=
  ∀ ds day, hmGet x.daily_data ds = some day →
    ∃ day', hmGet y.daily_data ds = some day' ∧ dayEvol day day'

theorem docEvol_refl (x : AppData) : docEvol x x :=
  fun _ day h => ⟨day, h, dayEvol_refl day⟩

theorem docEvol_trans {x y z : AppData} (h₁ : docEvol x y) (h₂ : docEvol y z) :
    docEvol x z := by
  intro ds day h
  obtain ⟨day₁, hd₁, he₁⟩ := h₁ ds day h
  obtain ⟨day₂, hd₂, he₂⟩ := h₂ ds day₁ hd₁
  exact ⟨day₂, hd₂, dayEvol_trans he₁ he₂⟩

theorem fireDay_entries (s : RecurringSchedule) (day : DayData) :
    (fireDay s day).attendance.entries =
      if hmContains day.attendance.entries (schedKey s) then day.attendance.entries
      else hmInsert day.attendance.entries (schedKey s) (autoEntry s) := by
  unfold fireDay
  by_cases hc : hmContains day.attendance.entries (schedKey s) = true <;>
    by_cases hst : s.service_type = ServiceType.Daycare <;>
      by_cases ht : (s.drop_off_time.isSome || s.pick_up_time.isSome) = true <;>
        simp [hc, hst, ht]

theorem fireDay_dogs (s : RecurringSchedule) (day : DayData) :
    (fireDay s day).attendance.dogs =
      if !hmContains day.attendance.entries (schedKey s) &&
          decide (s.service_type = ServiceType.Daycare) then
        hmInsert day.attendance.dogs s.dog_id true
      else day.attendance.dogs := by
  unfold fireDay
  by_cases hc : hmContains day.attendance.entries (schedKey s) = true <;>
    by_cases hst : s.service_type = ServiceType.Daycare <;>
      by_cases ht : (s.drop_off_time.isSome || s.pick_up_time.isSome) = true <;>
        simp [hc, hst, ht]

theorem fireDay_records (s : RecurringSchedule) (day : DayData) :
    (fireDay s day).records =
      if !hmContains day.attendance.entries (schedKey s) &&
          decide (s.service_type = ServiceType.Daycare) &&
          (s.drop_off_time.isSome || s.pick_up_time.isSome) then
        hmInsert day.records s.dog_id (fireRec s day)
      else day.records := by
  unfold fireDay
  by_cases hc : hmContains day.attendance.entries (schedKey s) = true <;>
    by_cases hst : s.service_type = ServiceType.Daycare <;>
      by_cases ht : (s.drop_off_time.isSome || s.pick_up_time.isSome) = true <;>
        simp [hc, hst, ht]

theorem fireDay_types (s : RecurringSchedule) (day : DayData) :
    (fireDay s day).attendance.types = day.attendance.types := by
  unfold fireDay
  by_cases hc : hmContains day.attendance.entries (schedKey s) = true <;>
    by_cases hst : s.service_type = ServiceType.Daycare <;>
      by_cases ht : (s.drop_off_time.isSome || s.pick_up_time.isSome) = true <;>
        simp [hc, hst, ht]

theorem fireDay_temps (s : RecurringSchedule) (day : DayData) :
    (fireDay s day).am_temp = day.am_temp ∧ (fireDay s day).pm_temp = day.pm_temp := by
  unfold fireDay
  by_cases hc : hmContains day.attendance.entries (schedKey s) = true <;>
    by_cases hst : s.service_type = ServiceType.Daycare <;>
      by_cases ht : (s.drop_off_time.isSome || s.pick_up_time.isSome) = true <;>
        simp [hc, hst, ht]

theorem hmGet_none_of_not_contains {α : Type} {m : HMap α} {k : String}
    (h : ¬ hmContains m k = true) : hmGet m k = none := by
  unfold hmContains at h
  cases hv : hmGet m k with
  | none => rfl
  | some v => rw [hv] at h; simp at h

theorem fireDay_evol (s : RecurringSchedule) (day : DayData) :
    dayEvol day (fireDay s day) := by
  constructor
  · intro k v h
    rw [fireDay_entries]
    by_cases hc : hmContains day.attendance.entries (schedKey s) = true
    · rw [if_pos hc]; exact h
    · rw [if_neg hc, hmGet_insert]
      by_cases hk : schedKey s = k
      · subst hk
        rw [hmGet_none_of_not_contains hc] at h
        cases h
      · rw [if_neg hk]; exact h
  · intro dg hdg
    rw [fireDay_records]
    by_cases hcond : (!hmContains day.attendance.entries (schedKey s) &&
        decide (s.service_type = ServiceType.Daycare) &&
        (s.drop_off_time.isSome || s.pick_up_time.isSome)) = true
    · rw [if_pos hcond]
      simp only [Bool.and_eq_true, Bool.not_eq_true', decide_eq_true_eq] at hcond
      obtain ⟨⟨hc, hst⟩, -⟩ := hcond
      rw [hmGet_insert]
      by_cases hdog : s.dog_id = dg
      · subst hdog
        have hkey : schedKey s = entryKeyOf s.dog_id ServiceType.Daycare := by
          unfold schedKey entryKeyOf
          rw [hst]
        rw [hkey] at hc
        rw [hdg] at hc
        cases hc
      · rw [if_neg hdog]
    · rw [if_neg hcond]

theorem fireSchedule_daily_get (ds : String) (s : RecurringSchedule) (doc : AppData)
    (ds₀ : String) :
    hmGet (fireSchedule ds s doc).daily_data ds₀ =
      if ds = ds₀ then some (fireDay s ((hmGet doc.daily_data ds).getD DayData.empty))
      else hmGet doc.daily_data ds₀ := by
  unfold fireSchedule
  exact hmGet_insert _ _ _ _

theorem fireSchedule_evol (ds : String) (s : RecurringSchedule) (doc : AppData) :
    docEvol doc (fireSchedule ds s doc) := by
  intro ds₀ day₀ h
  rw [fireSchedule_daily_get]
  by_cases hd : ds = ds₀
  · subst hd
    rw [if_pos rfl, h]
    exact ⟨fireDay s day₀, rfl, fireDay_evol s day₀⟩
  · rw [if_neg hd]
    exact ⟨day₀, h, dayEvol_refl day₀⟩

theorem processSchedule_evol {cur : Date} {ds : String} {doc doc' : AppData}
    {s : RecurringSchedule} (h : processSchedule cur ds doc s = .ok doc') :
    docEvol doc doc' := by
  rw [processSchedule_eq] at h
  by_cases hb : schedBad cur s = true
  · rw [if_pos hb] at h; cases h
  · rw [if_neg hb] at h
    by_cases hf : schedFires cur s = true
    · rw [if_pos hf] at h
      cases h
      exact fireSchedule_evol ds s doc
    · rw [if_neg hf] at h
      cases h
      exact docEvol_refl _

theorem processDate_evol {cur : Date} {ds : String} {scheds : List RecurringSchedule}
    {doc doc' : AppData} (h : processDate cur ds scheds doc = .ok doc') :
    docEvol doc doc' := by
  induction scheds generalizing doc with
  | nil =>
    unfold processDate at h
    cases h
    exact docEvol_refl _
  | cons s rest ih =>
    unfold processDate at h
    cases hps : processSchedule cur ds doc s with
    | error e => rw [hps] at h; cases h
    | ok doc₁ =>
      rw [hps] at h
      exact docEvol_trans (processSchedule_evol hps) (ih h)

theorem genLoop_evol {fuel : Nat} {cur e : Date} {doc doc' : AppData}
    (h : genLoop fuel cur e doc = .ok doc') : docEvol doc doc' := by
  induction fuel generalizing cur doc with
  | zero =>
    unfold genLoop at h
    cases h
    exact docEvol_refl _
  | succ fuel' ih =>
    unfold genLoop at h
    by_cases hle : dateLe cur e = true
    · rw [if_pos hle] at h
      cases hpd : processDate cur (formatDate cur) doc.recurring_schedules doc with
      | error err => rw [hpd] at h; cases h
      | ok doc₁ =>
        rw [hpd] at h
        exact docEvol_trans (processDate_evol hpd) (ih h)
    · rw [if_neg hle] at h
      cases h
      exact docEvol_refl _

theorem genInternal_evol {doc doc' : AppData} {sd ed : String}
    (h : generate_recurring_attendance_internal doc sd ed = .ok doc') :
    docEvol doc doc' := by
  unfold generate_recurring_attendance_internal at h
  cases hs : parseDate sd with
  | none => rw [hs] at h; cases h
  | some s =>
    rw [hs] at h
    cases he : parseDate ed with
    | none => rw [he] at h; cases h
    | some e =>
      rw [he] at h
      exact genLoop_evol h

/-- C8: for candidate at or after the anchor, BiWeekly fires exactly when the
weekdays match and the day count from anchor to candidate is non-negative and
divisible by 14; concretely, for anchor 2024-01-01, candidate 2024-01-08 does
not fire and candidate 2024-01-15 fires. -/
theorem C8_biweekly (c a : Date) (h : dateLe a c = true) :
    (should_generate_attendance c a .BiWeekly = true ↔
      (get_weekday_index c = get_weekday_index a ∧ 0 ≤ daysBetween c a ∧
        (14 : Int) ∣ daysBetween c a)) ∧
    should_generate_attendance ⟨2024, 1, 8⟩ ⟨2024, 1, 1⟩ .BiWeekly = false ∧
    should_generate_attendance ⟨2024, 1, 15⟩ ⟨2024, 1, 1⟩ .BiWeekly = true := by
  refine ⟨?_, by decide, by decide⟩
  by_cases hw : get_weekday_index c = get_weekday_index a
  · have hb : (get_weekday_index c == get_weekday_index a) = true := by simpa using hw
    simp only [should_generate_attendance, hb, if_true, Bool.and_eq_true,
      decide_eq_true_eq, beq_iff_eq]
    constructor
    · rintro ⟨h0, h14⟩
      exact ⟨hw, h0, by omega⟩
    · rintro ⟨-, h0, h14⟩
      exact ⟨h0, by omega⟩
  · have hb : (get_weekday_index c == get_weekday_index a) = false := by
      simpa using hw
    simp [should_generate_attendance, hb, hw]

/-- Witness for C8 at its concrete spec example. -/
theorem C8_biweekly_witness :
    should_generate_attendance ⟨2024, 1, 15⟩ ⟨2024, 1, 1⟩ .BiWeekly = true :=
  (C8_biweekly ⟨2024, 1, 15⟩ ⟨2024, 1, 1⟩ (by decide)).2.2

/-! Materialization touches only `daily_data`; the other document components
pass through every stage unchanged. -/

theorem processSchedule_frame {cur : Date} {ds : String} {doc doc' : AppData}
    {s : RecurringSchedule} (h : processSchedule cur ds doc s = .ok doc') :
    doc'.dogs = doc.dogs ∧ doc'.recurring_schedules = doc.recurring_schedules ∧
      doc'.settings = doc.settings := by
  rw [processSchedule_eq] at h
  by_cases hb : schedBad cur s = true
  · rw [if_pos hb] at h; cases h
  · rw [if_neg hb] at h
    by_cases hf : schedFires cur s = true
    · rw [if_pos hf] at h
      cases h
      exact ⟨rfl, rfl, rfl⟩
    · rw [if_neg hf] at h
      cases h
      exact ⟨rfl, rfl, rfl⟩

theorem processDate_frame {cur : Date} {ds : String} {scheds : List RecurringSchedule}
    {doc doc' : AppData} (h : processDate cur ds scheds doc = .ok doc') :
    doc'.dogs = doc.dogs ∧ doc'.recurring_schedules = doc.recurring_schedules ∧
      doc'.settings = doc.settings := by
  induction scheds generalizing doc with
  | nil =>
    unfold processDate at h
    cases h
    exact ⟨rfl, rfl, rfl⟩
  | cons s rest ih =>
    unfold processDate at h
    cases hps : processSchedule cur ds doc s with
    | error e => rw [hps] at h; cases h
    | ok doc₁ =>
      rw [hps] at h
      obtain ⟨h1, h2, h3⟩ := processSchedule_frame hps
      obtain ⟨g1, g2, g3⟩ := ih h
      exact ⟨g1.trans h1, g2.trans h2, g3.trans h3⟩

theorem genLoop_frame {fuel : Nat} {cur e : Date} {doc doc' : AppData}
    (h : genLoop fuel cur e doc = .ok doc') :
    doc'.dogs = doc.dogs ∧ doc'.recurring_schedules = doc.recurring_schedules ∧
      doc'.settings = doc.settings := by
  induction fuel generalizing cur doc with
  | zero =>
    unfold genLoop at h
    cases h
    exact ⟨rfl, rfl, rfl⟩
  | succ fuel' ih =>
    unfold genLoop at h
    by_cases hle : dateLe cur e = true
    · rw [if_pos hle] at h
      cases hpd : processDate cur (formatDate cur) doc.recurring_schedules doc with
      | error err => rw [hpd] at h; cases h
      | ok doc₁ =>
        rw [hpd] at h
        obtain ⟨h1, h2, h3⟩ := processDate_frame hpd
        obtain ⟨g1, g2, g3⟩ := ih h
        exact ⟨g1.trans h1, g2.trans h2, g3.trans h3⟩
    · rw [if_neg hle] at h
      cases h
      exact ⟨rfl, rfl, rfl⟩

theorem genInternal_frame {doc doc' : AppData} {sd ed : String}
    (h : generate_recurring_attendance_internal doc sd ed = .ok doc') :
    doc'.dogs = doc.dogs ∧ doc'.recurring_schedules = doc.recurring_schedules ∧
      doc'.settings = doc.settings := by
  unfold generate_recurring_attendance_internal at h
  cases hs : parseDate sd with
  | none => rw [hs] at h; cases h
  | some s =>
    rw [hs] at h
    cases he : parseDate ed with
    | none => rw [he] at h; cases h
    | some e =>
      rw [he] at h
      exact genLoop_frame h

/-! Concrete example documents used by witnesses and counterexamples. -/

/-- Settings value for the example documents. -/
def exampleSettings : Settings :=
  ⟨"Your Doggy Daycare", "", true, none, ⟨"", ""⟩, ⟨"", ""⟩, ⟨"", ""⟩⟩

/-- An empty example document. -/
def emptyDoc : AppData := ⟨[], [], [], exampleSettings⟩

/-- C2: an attendance entry that exists before materialization is returned
unchanged, in every field, after a successful materialization over any range
(in particular an `attending = false` value survives). -/
theorem C2_nondestructive_merge (doc : AppData) (sd ed ds k : String)
    (day : DayData) (e : AttendanceEntry) (doc' : AppData)
    (hday : hmGet doc.daily_data ds = some day)
    (hentry : hmGet day.attendance.entries k = some e)
    (hrun : generate_recurring_attendance_internal doc sd ed = .ok doc') :
    ∃ day', hmGet doc'.daily_data ds = some day' ∧
      hmGet day'.attendance.entries k = some e := by
  obtain ⟨day', hd, hev⟩ := genInternal_evol hrun ds day hday
  exact ⟨day', hd, hev.1 k e hentry⟩

/-- The spec's non-destructive-merge scenario: a manual Daycare entry with
`attending = false` on 2024-03-01. -/
def c2entry : AttendanceEntry := ⟨"dogA", .Daycare, false, none, none, some "manual"⟩

/-- Day holding the manual C2 entry. -/
def c2day : DayData := ⟨⟨[("dogA", false)], [("dogA_Daycare", c2entry)], []⟩, [], none, none⟩

/-- An active Daycare schedule covering 2024-03-01. -/
def c2sched : RecurringSchedule :=
  ⟨"s1", "dogA", .Daycare, .Daily, "2024-02-01", none, some "09:00", none, true, 0⟩

/-- Document for the C2 witness. -/
def c2doc : AppData := ⟨[], [("2024-03-01", c2day)], [c2sched], exampleSettings⟩

/-- Result of materializing the C2 document over its date. -/
def c2out : AppData :=
  match generate_recurring_attendance_internal c2doc "2024-03-01" "2024-03-01" with
  | .ok d => d
  | .error _ => c2doc

/-- Witness for C2 on the spec's concrete scenario. -/
theorem C2_nondestructive_merge_witness :
    ∃ day', hmGet c2out.daily_data "2024-03-01" = some day' ∧
      hmGet day'.attendance.entries "dogA_Daycare" = some c2entry :=
  C2_nondestructive_merge c2doc "2024-03-01" "2024-03-01" "2024-03-01" "dogA_Daycare"
    c2day c2entry c2out rfl rfl rfl

/-- C10: `clear_auto_generated_attendance` keeps, for every stored date, the
legacy boolean dog map, the attendance types, the daily records and the
temperatures exactly as they were, and keeps exactly those attendance entries
whose notes carry none of the three auto markers. -/
theorem C10_clear_auto_frame (doc : AppData) (ds : String) (day : DayData)
    (h : hmGet doc.daily_data ds = some day) :
    ∃ day', hmGet (clear_auto_generated_attendance doc).daily_data ds = some day' ∧
      day'.attendance.dogs = day.attendance.dogs ∧
      day'.attendance.types = day.attendance.types ∧
      day'.records = day.records ∧
      day'.am_temp = day.am_temp ∧
      day'.pm_temp = day.pm_temp ∧
      (∀ k e, (k, e) ∈ day'.attendance.entries ↔
        ((k, e) ∈ day.attendance.entries ∧ entryIsAutoNote e = false)) := by
  have hget : hmGet (clear_auto_generated_attendance doc).daily_data ds =
      (hmGet doc.daily_data ds).map (fun d => clearAutoDay d) :=
    hmGet_map_pair (fun _ d => clearAutoDay d) doc.daily_data ds
  refine ⟨clearAutoDay day, by rw [hget, h]; rfl, rfl, rfl, rfl, rfl, rfl, ?_⟩
  intro k e
  show (k, e) ∈ day.attendance.entries.filter (fun q => !entryIsAutoNote q.2) ↔ _
  rw [List.mem_filter]
  simp

/-- Day value for the C10 witness: one auto-generated entry, one manual
entry, a legacy flag, a record and a temperature. -/
def c10day : DayData :=
  ⟨⟨[("dogA", true)],
    [("dogA_Daycare", ⟨"dogA", .Daycare, true, none, none, some "Auto-scheduled"⟩),
     ("dogB_Daycare", ⟨"dogB", .Daycare, true, none, none, some "manual note"⟩)],
    [("dogA", .FullDay)]⟩,
   [("dogA", ⟨none, none, some "08:00", none, none⟩)], some "20C", none⟩

/-- Document for the C10 witness. -/
def c10doc : AppData := ⟨[], [("2024-03-01", c10day)], [], exampleSettings⟩

/-- Witness for C10 on a concrete day. -/
theorem C10_clear_auto_frame_witness :
    ∃ day', hmGet (clear_auto_generated_attendance c10doc).daily_data "2024-03-01" =
        some day' ∧
      day'.attendance.dogs = c10day.attendance.dogs ∧
      day'.attendance.types = c10day.attendance.types ∧
      day'.records = c10day.records ∧
      day'.am_temp = c10day.am_temp ∧
      day'.pm_temp = c10day.pm_temp ∧
      (∀ k e, (k, e) ∈ day'.attendance.entries ↔
        ((k, e) ∈ c10day.attendance.entries ∧ entryIsAutoNote e = false)) :=
  C10_clear_auto_frame c10doc "2024-03-01" c10day rfl

/-- C9: a mutator error persists nothing: the stored document after the cycle
equals the document before it, for an arbitrary failing mutator and in
particular for `update_dog`, `update_recurring_schedule` and
`delete_recurring_schedule` on unknown ids and for materialization on an
unparsable start date. -/
theorem C9_mutation_atomicity :
    (∀ (stored : AppData) (f : AppData → Except String AppData) (e : String),
      f stored = .error e → with_app_data_mut stored f = (.error e, stored)) ∧
    (∀ (stored : AppData) (today : Date) (ids : ServiceType → String) (ts : Int)
      (dog : Dog), stored.dogs.all (fun d => !(d.id == dog.id)) = true →
      with_app_data_mut stored (update_dog today ids ts dog) =
        (.error "Dog not found", stored)) ∧
    (∀ (stored : AppData) (sched : RecurringSchedule),
      stored.recurring_schedules.all (fun s => !(s.id == sched.id)) = true →
      with_app_data_mut stored (update_recurring_schedule sched) =
        (.error "Schedule not found", stored)) ∧
    (∀ (stored : AppData) (sid : String),
      stored.recurring_schedules.all (fun s => !(s.id == sid)) = true →
      with_app_data_mut stored (delete_recurring_schedule sid) =
        (.error "Schedule not found", stored)) ∧
    (∀ (stored : AppData) (sd ed : String), parseDate sd = none →
      with_app_data_mut stored (fun d => generate_recurring_attendance_internal d sd ed) =
        (.error "Invalid start date format", stored)) := by
  have hfail : ∀ (stored : AppData) (f : AppData → Except String AppData) (e : String),
      f stored = .error e → with_app_data_mut stored f = (.error e, stored) := by
    intro stored f e hf
    unfold with_app_data_mut
    rw [hf]
  refine ⟨hfail, ?_, ?_, ?_, ?_⟩
  · intro stored today ids ts dog h
    refine hfail _ _ _ ?_
    unfold update_dog
    rw [if_neg ?_]
    intro hany
    rw [List.any_eq_true] at hany
    obtain ⟨d, hd, hid⟩ := hany
    have := (List.all_eq_true.mp h) d hd
    rw [hid] at this
    cases this
  · intro stored sched h
    refine hfail _ _ _ ?_
    unfold update_recurring_schedule
    rw [if_neg ?_]
    intro hany
    rw [List.any_eq_true] at hany
    obtain ⟨s, hs, hid⟩ := hany
    have := (List.all_eq_true.mp h) s hs
    rw [hid] at this
    cases this
  · intro stored sid h
    refine hfail _ _ _ ?_
    unfold delete_recurring_schedule
    rw [if_neg ?_]
    intro hany
    rw [List.any_eq_true] at hany
    obtain ⟨s, hs, hid⟩ := hany
    have := (List.all_eq_true.mp h) s hs
    rw [hid] at this
    cases this
  · intro stored sd ed hsd
    refine hfail _ _ _ ?_
    unfold generate_recurring_attendance_internal
    rw [hsd]

/-! Schema migration (the fallback path of `load_app_data_from_disk`).
The Old* shapes stand for the generic JSON tree the fallback patches when the
strict decode fails, restricted to the fields the migration steps inspect; a
field that may be absent in an older document is an `Option`. -/

/-- Pre-migration settings: `business_phone` and `whatsapp_templates` may be
missing (`migrate_settings` fills them). -/
structure OldSettings where
  business_name : String
  business_phone : Option String
  auto_backup : Bool
  cloud_backup : Option CloudBackupConfig
  email_templates : MsgTemplate
  email_subjects : MsgTemplate
  whatsapp_templates : Option MsgTemplate
deriving DecidableEq, Repr

/-- The default WhatsApp templates `migrate_settings` injects. -/
def defaultWhatsAppTemplates : MsgTemplate :=
  ⟨"Hi {ownerName}! üêï This is a friendly reminder that {dogName} needs their monthly consent form completed for continued daycare services. Please complete it at your earliest convenience. Thanks!",
   "Hi {ownerName}! üêï Just a reminder that {dogName}\x27s {vaccineType} vaccination expires on {expirationDate}. Please update their vaccination records to continue daycare services. Thanks!"⟩

/-- `migrate_settings`: fill the possibly missing fields. -/
def migrate_settings (s : OldSettings) : Settings :=
  ⟨s.business_name, s.business_phone.getD "", s.auto_backup, s.cloud_backup,
    s.email_templates, s.email_subjects,
    s.whatsapp_templates.getD defaultWhatsAppTemplates⟩

/-- Pre-migration dog: the schedule descriptor may be missing. The legacy
`age` branch of `migrate_dogs` only removes a JSON field the strict decoder
ignores, so it has no observable effect on the decoded dog. -/
structure OldDog where
  id : String
  name : String
  owner : String
  phone : String
  email : String
  breed : String
  date_of_birth : Option String
  vaccine_date : Option String
  consent_last_signed : Option String
  created_at : Int
  schedule : Option DogSchedule
  household_id : Option String
deriving DecidableEq, Repr

/-- The schedule JSON `migrate_dogs` injects for a dog lacking one: empty day
lists, no times, no start or end date, and `active: true`. -/
def migrationDefaultSchedule : DogSchedule :=
  ⟨[], [], [], none, none, none, none, none, none, true⟩

/-- `migrate_dogs` on one dog. -/
def migrateDog (d : OldDog) : Dog :=
  ⟨d.id, d.name, d.owner, d.phone, d.email, d.breed, d.date_of_birth,
    d.vaccine_date, d.consent_last_signed, d.created_at,
    d.schedule.getD migrationDefaultSchedule, d.household_id⟩

/-- Pre-migration day attendance: the `entries` sub-map may be missing. -/
structure OldDayAttendance where
  dogs : HMap Bool
  entries : Option (HMap AttendanceEntry)
  types : HMap AttendanceType
deriving DecidableEq, Repr

/-- Pre-migration day data. -/
structure OldDayData where
  attendance : OldDayAttendance
  records : HMap DailyRecord
  am_temp : Option String
  pm_temp : Option String
deriving DecidableEq, Repr

/-- The Daycare entry `migrate_daily_data` builds from a legacy attending
flag, picking times out of the dog's daily record when present. -/
def legacyEntry (records : HMap DailyRecord) (dogId : String) : AttendanceEntry :=
  ⟨dogId, .Daycare, true, (hmGet records dogId).bind (fun r => r.drop_off_time),
    (hmGet records dogId).bind (fun r => r.pick_up_time),
    some "Migrated from legacy attendance"⟩

/-- The entries map `migrate_daily_data` builds from the legacy boolean map
when the `entries` sub-map is missing. -/
def legacyEntries (dogs : HMap Bool) (records : HMap DailyRecord) : HMap AttendanceEntry :=
  dogs.foldl (fun acc p =>
    if p.2 then hmInsert acc (p.1 ++ "_Daycare") (legacyEntry records p.1) else acc) []

/-- `migrate_daily_data` on one day. -/
def migrateDayData (day : OldDayData) : DayData :=
  ⟨⟨day.attendance.dogs,
    day.attendance.entries.getD (legacyEntries day.attendance.dogs day.records),
    day.attendance.types⟩,
   day.records, day.am_temp, day.pm_temp⟩

/-- Pre-migration document: the recurring-schedules list may be missing. -/
structure OldAppData where
  dogs : List OldDog
  daily_data : HMap OldDayData
  recurring_schedules : Option (List RecurringSchedule)
  settings : OldSettings
deriving Repr

/-- The migration composite run by `load_app_data_from_disk` when the strict
decode fails: patch settings, dogs, the recurring-schedules list and every
day, then decode into the current shape. -/
def load_migrated (old : OldAppData) : AppData :=
  ⟨old.dogs.map migrateDog,
   old.daily_data.map (fun p => (p.1, migrateDayData p.2)),
   old.recurring_schedules.getD [],
   migrate_settings old.settings⟩

/-- Old document whose single dog lacks a schedule descriptor. -/
def c7dog : OldDog := ⟨"d1", "Rex", "o", "p", "e", "b", none, none, none, 0, none, none⟩

/-- Old settings value for the C7 examples. -/
def c7settings : OldSettings := ⟨"n", none, true, none, ⟨"", ""⟩, ⟨"", ""⟩, none⟩

/-- Old document for the C7 counterexample. -/
def c7old : OldAppData := ⟨[c7dog], [], none, c7settings⟩

/-- C7 counterexample: the schedule descriptor migration attaches an ACTIVE
default schedule, not an inactive one as the claim states: for a migrated
document whose only dog lacked a descriptor, the attached descriptor has
`active = true`, refuting the claimed `active = false`. -/
theorem C7_migration_counterexample :
    ((load_migrated c7old).dogs.map (fun d => d.schedule.active)) = [true] ∧
    ¬ ((load_migrated c7old).dogs.map (fun d => d.schedule.active)) = [false] := by
  exact ⟨rfl, by decide⟩

/-- C7 (amended): loading a document missing `recurring_schedules`, a dog's
schedule descriptor, or an `entries` sub-map succeeds with those fields
present — the schedules list empty, the descriptor the default one with
`active = true` (not inactive), and the entries map rebuilt from the legacy
attending flags (empty when there are none) — while every dog's pre-existing
fields and every day's other fields are unchanged. -/
theorem C7_migration_amended (old : OldAppData) :
    ((load_migrated old).recurring_schedules = old.recurring_schedules.getD []) ∧
    (old.recurring_schedules = none → (load_migrated old).recurring_schedules = []) ∧
    (∀ i (hi : i < old.dogs.length),
      ∃ hj : i < (load_migrated old).dogs.length,
        ((load_migrated old).dogs.get ⟨i, hj⟩).id = (old.dogs.get ⟨i, hi⟩).id ∧
        ((load_migrated old).dogs.get ⟨i, hj⟩).name = (old.dogs.get ⟨i, hi⟩).name ∧
        ((load_migrated old).dogs.get ⟨i, hj⟩).owner = (old.dogs.get ⟨i, hi⟩).owner ∧
        ((load_migrated old).dogs.get ⟨i, hj⟩).phone = (old.dogs.get ⟨i, hi⟩).phone ∧
        ((load_migrated old).dogs.get ⟨i, hj⟩).email = (old.dogs.get ⟨i, hi⟩).email ∧
        ((load_migrated old).dogs.get ⟨i, hj⟩).breed = (old.dogs.get ⟨i, hi⟩).breed ∧
        ((load_migrated old).dogs.get ⟨i, hj⟩).date_of_birth =
          (old.dogs.get ⟨i, hi⟩).date_of_birth ∧
        ((load_migrated old).dogs.get ⟨i, hj⟩).vaccine_date =
          (old.dogs.get ⟨i, hi⟩).vaccine_date ∧
        ((load_migrated old).dogs.get ⟨i, hj⟩).consent_last_signed =
          (old.dogs.get ⟨i, hi⟩).consent_last_signed ∧
        ((load_migrated old).dogs.get ⟨i, hj⟩).created_at =
          (old.dogs.get ⟨i, hi⟩).created_at ∧
        ((load_migrated old).dogs.get ⟨i, hj⟩).household_id =
          (old.dogs.get ⟨i, hi⟩).household_id ∧
        ((load_migrated old).dogs.get ⟨i, hj⟩).schedule =
          (old.dogs.get ⟨i, hi⟩).schedule.getD migrationDefaultSchedule) ∧
    (migrationDefaultSchedule.active = true) ∧
    (∀ ds oldDay, hmGet old.daily_data ds = some oldDay →
      ∃ day, hmGet (load_migrated old).daily_data ds = some day ∧
        day.attendance.dogs = oldDay.attendance.dogs ∧
        day.attendance.types = oldDay.attendance.types ∧
        day.records = oldDay.records ∧
        day.am_temp = oldDay.am_temp ∧
        day.pm_temp = oldDay.pm_temp ∧
        day.attendance.entries =
          oldDay.attendance.entries.getD
            (legacyEntries oldDay.attendance.dogs oldDay.records) ∧
        (oldDay.attendance.entries = none → oldDay.attendance.dogs = [] →
          day.attendance.entries = [])) := by
  refine ⟨rfl, ?_, ?_, rfl, ?_⟩
  · intro h
    show old.recurring_schedules.getD [] = []
    rw [h]
    rfl
  · intro i hi
    have hj : i < (load_migrated old).dogs.length := by
      show i < (old.dogs.map migrateDog).length
      rw [List.length_map]
      exact hi
    refine ⟨hj, ?_⟩
    have hget : (load_migrated old).dogs.get ⟨i, hj⟩ =
        migrateDog (old.dogs.get ⟨i, hi⟩) := by
      show (old.dogs.map migrateDog).get ⟨i, hj⟩ = _
      simp [List.get_map]
    rw [hget]
    exact ⟨rfl, rfl, rfl, rfl, rfl, rfl, rfl, rfl, rfl, rfl, rfl, rfl⟩
  · intro ds oldDay h
    have hget : hmGet (load_migrated old).daily_data ds =
        (hmGet old.daily_data ds).map (fun d => migrateDayData d) :=
      hmGet_map_pair (fun _ d => migrateDayData d) old.daily_data ds
    refine ⟨migrateDayData oldDay, by rw [hget, h]; rfl,
      rfl, rfl, rfl, rfl, rfl, rfl, ?_⟩
    intro hnone hdogs
    show oldDay.attendance.entries.getD
      (legacyEntries oldDay.attendance.dogs oldDay.records) = []
    rw [hnone, hdogs]
    rfl

/-- Old day for the C7 witness: no `entries` sub-map, one legacy attending
flag, one record carrying a drop-off time. -/
def c7day : OldDayData :=
  ⟨⟨[("dogA", true)], none, []⟩, [("dogA", ⟨none, none, some "08:00", none, none⟩)],
    none, none⟩

/-- Old document for the C7 witness. -/
def c7old2 : OldAppData := ⟨[c7dog], [("2023-05-01", c7day)], none, c7settings⟩

/-- Witness for the amended C7 at a concrete old document. -/
theorem C7_migration_amended_witness :
    ∃ day, hmGet (load_migrated c7old2).daily_data "2023-05-01" = some day ∧
      day.attendance.dogs = c7day.attendance.dogs ∧
      day.attendance.types = c7day.attendance.types ∧
      day.records = c7day.records ∧
      day.am_temp = c7day.am_temp ∧
      day.pm_temp = c7day.pm_temp ∧
      day.attendance.entries =
        c7day.attendance.entries.getD
          (legacyEntries c7day.attendance.dogs c7day.records) ∧
      (c7day.attendance.entries = none → c7day.attendance.dogs = [] →
        day.attendance.entries = []) :=
  (C7_migration_amended c7old2).2.2.2.2 "2023-05-01" c7day rfl

theorem dateLe_refl (a : Date) : dateLe a a = true := by
  simp [dateLe]

/-- C5 counterexample scene: schedule with drop-off 09:00 and a day that
already has a record saying 08:00 but no attendance entry. -/
def c5sched : RecurringSchedule :=
  ⟨"s1", "dogA", .Daycare, .Daily, "2024-03-01", none, some "09:00", none, true, 0⟩

/-- Day with a pre-existing record and no attendance entry. -/
def c5bday : DayData :=
  ⟨⟨[], [], []⟩, [("dogA", ⟨none, none, some "08:00", none, none⟩)], none, none⟩

/-- Document for the C5 counterexample and part (b) of the witness. -/
def c5bdoc : AppData := ⟨[], [("2024-03-04", c5bday)], [c5sched], exampleSettings⟩

/-- C5 counterexample: the claim that a record already carrying a
`drop_off_time` keeps its value is false: materializing a new Daycare
occurrence overwrites the stored 08:00 with the schedule's 09:00. -/
theorem C5_backfill_counterexample :
    ((hmGet c5bdoc.daily_data "2024-03-04").map
      (fun day => (hmGet day.records "dogA").map (fun r => r.drop_off_time)) =
        some (some (some "08:00"))) ∧
    ((generate_recurring_attendance_internal c5bdoc "2024-03-04" "2024-03-04").map
      (fun d => (hmGet d.daily_data "2024-03-04").map
        (fun day => (hmGet day.records "dogA").map (fun r => r.drop_off_time))) =
      .ok (some (some (some "09:00")))) ∧
    (some (some (some "09:00")) : Option (Option (Option String))) ≠
      some (some (some "08:00")) := by
  exact ⟨rfl, rfl, by decide⟩

/-- C5 (amended): during materialization the schedule's times are written
into the date's per-dog daily record only when a new attendance entry is
inserted for the (dog, Daycare) key — and in that case they overwrite any
value the record already carried; a day whose (dog, Daycare) entry already
exists keeps the dog's daily record untouched. -/
theorem C5_record_backfill_amended :
    (∀ (doc : AppData) (sd ed ds dog : String) (day : DayData) (doc' : AppData),
      generate_recurring_attendance_internal doc sd ed = .ok doc' →
      hmGet doc.daily_data ds = some day →
      hmContains day.attendance.entries (entryKeyOf dog .Daycare) = true →
      ∃ day', hmGet doc'.daily_data ds = some day' ∧
        hmGet day'.records dog = hmGet day.records dog) ∧
    (∀ (doc : AppData) (s : RecurringSchedule) (cur : Date) (ds t : String)
      (doc' : AppData),
      doc.recurring_schedules = [s] →
      parseDate ds = some cur →
      formatDate cur = ds →
      schedBad cur s = false →
      schedFires cur s = true →
      s.service_type = ServiceType.Daycare →
      s.drop_off_time = some t →
      hmContains ((hmGet doc.daily_data ds).getD DayData.empty).attendance.entries
        (schedKey s) = false →
      generate_recurring_attendance_internal doc ds ds = .ok doc' →
      ∃ day' r, hmGet doc'.daily_data ds = some day' ∧
        hmGet day'.records s.dog_id = some r ∧ r.drop_off_time = some t) := by
  constructor
  · intro doc sd ed ds dog day doc' hrun hday hkey
    obtain ⟨day', hd, hev⟩ := genInternal_evol hrun ds day hday
    exact ⟨day', hd, hev.2 dog hkey⟩
  · intro doc s cur ds t doc' hsch hds hfmt hbad hfire hst ht hc hrun
    unfold generate_recurring_attendance_internal at hrun
    rw [hds] at hrun
    dsimp only at hrun
    have hdb : (daysBetween cur cur + 1).toNat = 1 := by
      unfold daysBetween
      simp
    rw [hdb] at hrun
    unfold genLoop at hrun
    rw [if_pos (dateLe_refl cur), hfmt, hsch] at hrun
    unfold processDate at hrun
    rw [processSchedule_eq, hbad] at hrun
    simp only [Bool.false_eq_true, if_false, hfire, if_true] at hrun
    unfold processDate genLoop at hrun
    cases hrun
    refine ⟨fireDay s ((hmGet doc.daily_data ds).getD DayData.empty),
      fireRec s ((hmGet doc.daily_data ds).getD DayData.empty), ?_, ?_, ?_⟩
    · rw [fireSchedule_daily_get, if_pos rfl]
    · rw [fireDay_records, if_pos ?_, hmGet_insert_same]
      rw [hc, hst, ht]
      simp
    · unfold fireRec
      rw [ht]
      cases hp : s.pick_up_time <;> simp

/-- Day for part (a) of the C5 witness: the (dogA, Daycare) entry exists and
the record says 08:00. -/
def c5aday : DayData :=
  ⟨⟨[], [("dogA_Daycare", ⟨"dogA", .Daycare, true, none, none, none⟩)], []⟩,
    [("dogA", ⟨none, none, some "08:00", none, none⟩)], none, none⟩

/-- Document for part (a) of the C5 witness. -/
def c5adoc : AppData := ⟨[], [("2024-03-04", c5aday)], [c5sched], exampleSettings⟩

/-- Result of materializing the part (a) document. -/
def c5aout : AppData :=
  match generate_recurring_attendance_internal c5adoc "2024-03-04" "2024-03-04" with
  | .ok d => d
  | .error _ => c5adoc

/-- Result of materializing the part (b) document. -/
def c5bout : AppData :=
  match generate_recurring_attendance_internal c5bdoc "2024-03-04" "2024-03-04" with
  | .ok d => d
  | .error _ => c5bdoc

/-- Witness for the amended C5 on both scenes: the record survives when the
entry exists, and receives the schedule's time when the entry is new. -/
theorem C5_record_backfill_amended_witness :
    (∃ day', hmGet c5aout.daily_data "2024-03-04" = some day' ∧
      hmGet day'.records "dogA" = hmGet c5aday.records "dogA") ∧
    (∃ day' r, hmGet c5bout.daily_data "2024-03-04" = some day' ∧
      hmGet day'.records "dogA" = some r ∧ r.drop_off_time = some "09:00") :=
  ⟨C5_record_backfill_amended.1 c5adoc "2024-03-04" "2024-03-04" "2024-03-04" "dogA"
      c5aday c5aout rfl rfl rfl,
   C5_record_backfill_amended.2 c5bdoc c5sched ⟨2024, 3, 4⟩ "2024-03-04" "09:00"
      c5bout rfl rfl rfl rfl rfl rfl rfl rfl rfl⟩

theorem dateLe_eq_not_dateLt (a b : Date) : dateLe a b = !dateLt b a := by
  obtain ⟨ay, am, ad⟩ := a
  obtain ⟨by', bm, bd⟩ := b
  rw [Bool.eq_iff_iff]
  simp only [dateLe, dateLt, Bool.or_eq_true, Bool.and_eq_true, Bool.not_eq_true',
    Bool.or_eq_false_iff, Bool.and_eq_false_iff, decide_eq_true_eq, beq_iff_eq,
    Date.mk.injEq, decide_eq_false_iff_not, beq_eq_false_iff_ne, ne_eq]
  omega

theorem generate_schedules_daily (today : Date) (ids : ServiceType → String)
    (nowTs : Int) (dog : Dog) (doc : AppData) :
    (generate_schedules_for_dog today ids nowTs dog doc).daily_data = doc.daily_data := by
  unfold generate_schedules_for_dog
  split <;> rfl

theorem clear_future_get (today : Date) (dogId : String) (doc : AppData) (ds : String) :
    hmGet (clear_future_attendance_for_dog today dogId doc).daily_data ds =
      (hmGet doc.daily_data ds).map (clearFutureDayAt today dogId ds) :=
  hmGet_map_pair (clearFutureDayAt today dogId) doc.daily_data ds

/-- Dog for the C4 scenes: id "a", schedule inactive. -/
def c4dogA : Dog :=
  ⟨"a", "A", "o", "p", "e", "b", none, none, none, 0,
    ⟨[], [], [], none, none, none, none, none, none, false⟩, none⟩

/-- Another dog's manual entry whose key starts with `a_`. -/
def c4entryAB : AttendanceEntry := ⟨"a_b", .Daycare, false, none, none, some "manual"⟩

/-- Future day carrying the other dog's entry. -/
def c4futDay : DayData :=
  ⟨⟨[("a_b", false)], [("a_b_Daycare", c4entryAB)], []⟩, [], none, none⟩

/-- Document for the C4 counterexample. -/
def c4doc : AppData := ⟨[c4dogA], [("2024-01-02", c4futDay)], [], exampleSettings⟩

/-- C4 counterexample: editing dog "a" removes the entry of the DIFFERENT dog
"a_b" on a future date, because removal matches entry keys by the string
prefix `a_` rather than by the owning dog: the claim that every other dog's
entry is left unchanged is false. -/
theorem C4_dog_edit_counterexample :
    hmGet c4futDay.attendance.entries "a_b_Daycare" = some c4entryAB ∧
    c4entryAB.dog_id = "a_b" ∧
    ("a_b" : String) ≠ "a" ∧
    (update_dog ⟨2024, 1, 1⟩ (fun _ => "fresh") 0 c4dogA c4doc).map
      (fun d => (hmGet d.daily_data "2024-01-02").map
        (fun day => hmGet day.attendance.entries "a_b_Daycare")) = .ok (some none) := by
  exact ⟨rfl, rfl, by decide, rfl⟩

/-- C4 (amended): the clear step of a dog edit — run before any
regeneration — removes, on every stored date that parses to today or later,
exactly the attendance entries whose key starts with the edited dog's id
followed by an underscore (NOT exactly the dog's own entries: an entry of
another dog whose id extends the edited id past the underscore is removed
too), together with the edited dog's legacy flag; at that step, days before
today, unparsable date keys, and a cleared day's types, records and
temperatures are untouched. Through the whole `update_dog` cycle, every
pre-existing ATTENDANCE ENTRY that is on an unparsable or pre-today date, or
whose key lacks that prefix, is still present with its exact value (the
subsequent regeneration may add entries, re-set legacy flags and overwrite
records, but never alters an existing entry). -/
theorem C4_dog_edit_amended :
    (∀ (today : Date) (dogId : String) (doc : AppData) (ds : String),
      (hmGet doc.daily_data ds = none →
        hmGet (clear_future_attendance_for_dog today dogId doc).daily_data ds = none) ∧
      (∀ day, hmGet doc.daily_data ds = some day →
        ∃ day', hmGet (clear_future_attendance_for_dog today dogId doc).daily_data ds =
            some day' ∧
          (match parseDate ds with
           | some d =>
             if dateLe today d = true then
               (∀ k e, (k, e) ∈ day'.attendance.entries ↔
                 ((k, e) ∈ day.attendance.entries ∧
                   strStartsWith k (dogId ++ "_") = false)) ∧
               (∀ k b, (k, b) ∈ day'.attendance.dogs ↔
                 ((k, b) ∈ day.attendance.dogs ∧ k ≠ dogId)) ∧
               day'.attendance.types = day.attendance.types ∧
               day'.records = day.records ∧
               day'.am_temp = day.am_temp ∧ day'.pm_temp = day.pm_temp
             else day' = day
           | none => day' = day))) ∧
    (∀ (today : Date) (ids : ServiceType → String) (ts : Int) (dog : Dog)
      (doc doc' : AppData) (ds k : String) (day : DayData) (e : AttendanceEntry),
      update_dog today ids ts dog doc = .ok doc' →
      hmGet doc.daily_data ds = some day →
      hmGet day.attendance.entries k = some e →
      (match parseDate ds with
       | some d => dateLt d today = true ∨ strStartsWith k (dog.id ++ "_") = false
       | none => True) →
      ∃ day', hmGet doc'.daily_data ds = some day' ∧
        hmGet day'.attendance.entries k = some e) := by
  constructor
  · intro today dogId doc ds
    constructor
    · intro h
      rw [clear_future_get, h]
      rfl
    · intro day h
      refine ⟨clearFutureDayAt today dogId ds day, by rw [clear_future_get, h]; rfl, ?_⟩
      unfold clearFutureDayAt
      cases hp : parseDate ds with
      | none => rfl
      | some d =>
        dsimp only
        by_cases hle : dateLe today d = true
        · simp only [if_pos hle]
          refine ⟨?_, ?_, rfl, rfl, rfl, rfl⟩
          · intro k e
            show (k, e) ∈ day.attendance.entries.filter
              (fun q => !strStartsWith q.1 (dogId ++ "_")) ↔ _
            rw [List.mem_filter]
            simp
          · intro k b
            show (k, b) ∈ (day.attendance.dogs).filter
              (fun p => decide (p.1 ≠ dogId)) ↔ _
            rw [List.mem_filter]
            simp
        · simp only [if_neg hle]
  · intro today ids ts dog doc doc' ds k day e hrun hday hentry hkept
    unfold update_dog at hrun
    by_cases hany : doc.dogs.any (fun d => d.id == dog.id) = true
    · rw [if_pos hany] at hrun
      dsimp only at hrun
      have hclear : hmGet (clearFutureDayAt today dog.id ds day).attendance.entries k =
          some e := by
        unfold clearFutureDayAt
        cases hp : parseDate ds with
        | none => exact hentry
        | some d =>
          rw [hp] at hkept
          replace hkept : dateLt d today = true ∨
              strStartsWith k (dog.id ++ "_") = false := hkept
          dsimp only
          by_cases hle : dateLe today d = true
          · rw [if_pos hle]
            rcases hkept with hlt | hpre
            · rw [dateLe_eq_not_dateLt, hlt] at hle
              cases hle
            · show hmGet (day.attendance.entries.filter
                (fun q => !strStartsWith q.1 (dog.id ++ "_"))) k = some e
              rw [hmGet_filter_key (fun x => !strStartsWith x (dog.id ++ "_"))]
              rw [hpre]
              simpa using hentry
          · rw [if_neg hle]
            exact hentry
      obtain ⟨day', hd', hev⟩ := genInternal_evol hrun ds
        (clearFutureDayAt today dog.id ds day)
        (by rw [generate_schedules_daily]
            dsimp only
            rw [clear_future_get]
            dsimp only
            rw [hday]
            rfl)
      exact ⟨day', hd', hev.1 k e hclear⟩
    · rw [if_neg hany] at hrun
      cases hrun

/-- Past day for the C4 witness: a manual entry for dog "a" on 2024-01-01. -/
def c4pastEntry : AttendanceEntry := ⟨"a", .Daycare, true, none, none, some "manual"⟩

/-- Past day holding the manual entry. -/
def c4pastDay : DayData :=
  ⟨⟨[("a", true)], [("a_Daycare", c4pastEntry)], []⟩, [], none, none⟩

/-- Document for the C4 witness: the manual entry sits on a date before
today (2024-01-05). -/
def c4bdoc : AppData := ⟨[c4dogA], [("2024-01-01", c4pastDay)], [], exampleSettings⟩

/-- Result of the witness dog edit. -/
def c4bout : AppData :=
  match update_dog ⟨2024, 1, 5⟩ (fun _ => "fresh") 0 c4dogA c4bdoc with
  | .ok d => d
  | .error _ => c4bdoc

/-- Witness for the amended C4: the clear step on the counterexample document
behaves as characterized, and the full dog edit keeps the past manual
entry. -/
theorem C4_dog_edit_amended_witness :
    (∃ day', hmGet (clear_future_attendance_for_dog ⟨2024, 1, 1⟩ "a" c4doc).daily_data
        "2024-01-02" = some day' ∧
      (∀ k e, (k, e) ∈ day'.attendance.entries ↔
        ((k, e) ∈ c4futDay.attendance.entries ∧ strStartsWith k ("a" ++ "_") = false)) ∧
      (∀ k b, (k, b) ∈ day'.attendance.dogs ↔
        ((k, b) ∈ c4futDay.attendance.dogs ∧ k ≠ "a")) ∧
      day'.attendance.types = c4futDay.attendance.types ∧
      day'.records = c4futDay.records ∧
      day'.am_temp = c4futDay.am_temp ∧ day'.pm_temp = c4futDay.pm_temp) ∧
    (∃ day', hmGet c4bout.daily_data "2024-01-01" = some day' ∧
      hmGet day'.attendance.entries "a_Daycare" = some c4pastEntry) :=
  ⟨(C4_dog_edit_amended.1 ⟨2024, 1, 1⟩ "a" c4doc "2024-01-02").2 c4futDay rfl,
   C4_dog_edit_amended.2 ⟨2024, 1, 5⟩ (fun _ => "fresh") 0 c4dogA c4bdoc c4bout
     "2024-01-01" "a_Daycare" c4pastDay c4pastEntry rfl rfl rfl (Or.inl rfl)⟩

/-! Idempotence of materialization: after a successful run, every firing
(date, schedule) pair has its entry key present, so a second run over the
same range performs no write at all. -/

theorem hmContains_of_dayEvol {a b : DayData} (h : dayEvol a b) {k : String}
    (hc : hmContains a.attendance.entries k = true) :
    hmContains b.attendance.entries k = true := by
  unfold hmContains at hc ⊢
  cases hv : hmGet a.attendance.entries k with
  | none => rw [hv] at hc; simp at hc
  | some v => rw [h.1 k v hv]; rfl

theorem fireSchedule_noop {ds : String} {s : RecurringSchedule} {doc : AppData}
    {day : DayData} (hday : hmGet doc.daily_data ds = some day)
    (hc : hmContains day.attendance.entries (schedKey s) = true) :
    fireSchedule ds s doc = doc := by
  unfold fireSchedule
  rw [hday]
  have hfd : fireDay s day = day := by
    unfold fireDay
    rw [if_pos (by simpa using hc)]
  show { doc with daily_data := hmInsert doc.daily_data ds (fireDay s ((some day).getD DayData.empty)) } = doc
  have : fireDay s ((some day).getD DayData.empty) = day := hfd
  rw [this, hmInsert_self doc.daily_data ds day hday]

theorem processSchedule_fires_present {cur : Date} {ds : String} {doc doc₁ : AppData}
    {s : RecurringSchedule} (h : processSchedule cur ds doc s = .ok doc₁)
    (hf : schedFires cur s = true) :
    ∃ day, hmGet doc₁.daily_data ds = some day ∧
      hmContains day.attendance.entries (schedKey s) = true := by
  rw [processSchedule_eq] at h
  by_cases hb : schedBad cur s = true
  · rw [if_pos hb] at h; cases h
  · rw [if_neg hb, if_pos hf] at h
    cases h
    refine ⟨fireDay s ((hmGet doc.daily_data ds).getD DayData.empty),
      by rw [fireSchedule_daily_get, if_pos rfl], ?_⟩
    rw [fireDay_entries]
    by_cases hc : hmContains ((hmGet doc.daily_data ds).getD DayData.empty).attendance.entries
        (schedKey s) = true
    · rw [if_pos hc]; exact hc
    · rw [if_neg hc]
      unfold hmContains
      rw [hmGet_insert_same]
      rfl

theorem processDate_not_bad {cur : Date} {ds : String} {scheds : List RecurringSchedule}
    {doc doc' : AppData} (h : processDate cur ds scheds doc = .ok doc') :
    ∀ s ∈ scheds, schedBad cur s = false := by
  induction scheds generalizing doc with
  | nil => intro s hs; cases hs
  | cons s₀ rest ih =>
    intro s hs
    unfold processDate at h
    cases hps : processSchedule cur ds doc s₀ with
    | error e => rw [hps] at h; cases h
    | ok doc₁ =>
      rw [hps] at h
      rw [List.mem_cons] at hs
      rcases hs with rfl | hs
      · rw [processSchedule_eq] at hps
        by_cases hb : schedBad cur s = true
        · rw [if_pos hb] at hps; cases hps
        · simpa using hb
      · exact ih h s hs

theorem processDate_fires_present {cur : Date} {ds : String}
    {scheds : List RecurringSchedule} {doc doc' : AppData}
    (h : processDate cur ds scheds doc = .ok doc') :
    ∀ s ∈ scheds, schedFires cur s = true →
      ∃ day, hmGet doc'.daily_data ds = some day ∧
        hmContains day.attendance.entries (schedKey s) = true := by
  induction scheds generalizing doc with
  | nil => intro s hs; cases hs
  | cons s₀ rest ih =>
    intro s hs hf
    unfold processDate at h
    cases hps : processSchedule cur ds doc s₀ with
    | error e => rw [hps] at h; cases h
    | ok doc₁ =>
      rw [hps] at h
      rw [List.mem_cons] at hs
      rcases hs with rfl | hs
      · obtain ⟨day, hday, hc⟩ := processSchedule_fires_present hps hf
        obtain ⟨day', hday', hev⟩ := processDate_evol h ds day hday
        exact ⟨day', hday', hmContains_of_dayEvol hev hc⟩
      · exact ih h s hs hf

theorem processSchedule_skip {cur : Date} {ds : String} {doc : AppData}
    {s : RecurringSchedule} (hb : schedBad cur s = false)
    (hp : schedFires cur s = true →
      ∃ day, hmGet doc.daily_data ds = some day ∧
        hmContains day.attendance.entries (schedKey s) = true) :
    processSchedule cur ds doc s = .ok doc := by
  rw [processSchedule_eq, hb]
  simp only [Bool.false_eq_true, if_false]
  by_cases hf : schedFires cur s = true
  · rw [if_pos hf]
    obtain ⟨day, hday, hc⟩ := hp hf
    rw [fireSchedule_noop hday hc]
  · rw [if_neg hf]

theorem processDate_idem {cur : Date} {ds : String} {scheds : List RecurringSchedule}
    {doc : AppData}
    (hb : ∀ s ∈ scheds, schedBad cur s = false)
    (hp : ∀ s ∈ scheds, schedFires cur s = true →
      ∃ day, hmGet doc.daily_data ds = some day ∧
        hmContains day.attendance.entries (schedKey s) = true) :
    processDate cur ds scheds doc = .ok doc := by
  induction scheds with
  | nil => rfl
  | cons s₀ rest ih =>
    unfold processDate
    rw [processSchedule_skip (hb s₀ (by simp)) (hp s₀ (by simp))]
    exact ih (fun s hs => hb s (by simp [hs])) (fun s hs => hp s (by simp [hs]))

theorem genLoop_idem {fuel : Nat} {cur e : Date} {doc doc' : AppData}
    (h : genLoop fuel cur e doc = .ok doc') :
    genLoop fuel cur e doc' = .ok doc' := by
  induction fuel generalizing cur doc with
  | zero =>
    unfold genLoop at h
    cases h
    rfl
  | succ fuel' ih =>
    unfold genLoop at h ⊢
    by_cases hle : dateLe cur e = true
    · rw [if_pos hle] at h ⊢
      cases hpd : processDate cur (formatDate cur) doc.recurring_schedules doc with
      | error err => rw [hpd] at h; cases h
      | ok d₁ =>
        rw [hpd] at h
        have hsch : doc'.recurring_schedules = doc.recurring_schedules := by
          rw [(genLoop_frame h).2.1, (processDate_frame hpd).2.1]
        have hpd' : processDate cur (formatDate cur) doc'.recurring_schedules doc' =
            .ok doc' := by
          rw [hsch]
          refine processDate_idem (processDate_not_bad hpd) ?_
          intro s hs hf
          obtain ⟨day, hday, hc⟩ := processDate_fires_present hpd s hs hf
          obtain ⟨day', hday', hev⟩ := genLoop_evol h (formatDate cur) day hday
          exact ⟨day', hday', hmContains_of_dayEvol hev hc⟩
        rw [hpd']
        exact ih h
    · rw [if_neg hle] at h ⊢

/-- C3: materialization is idempotent: a successful run over a range followed
by a second run over the same range returns the same document unchanged. -/
theorem C3_idempotent (doc : AppData) (sd ed : String) (doc' : AppData)
    (h : generate_recurring_attendance_internal doc sd ed = .ok doc') :
    generate_recurring_attendance_internal doc' sd ed = .ok doc' := by
  unfold generate_recurring_attendance_internal at h ⊢
  cases hs : parseDate sd with
  | none => rw [hs] at h; cases h
  | some s =>
    rw [hs] at h
    dsimp only at h ⊢
    cases he : parseDate ed with
    | none => rw [he] at h; cases h
    | some e =>
      rw [he] at h
      dsimp only at h ⊢
      exact genLoop_idem h

/-- Schedule for the C3 witness. -/
def c3sched : RecurringSchedule :=
  ⟨"s1", "dogA", .Daycare, .Daily, "2024-03-01", none, some "09:00", none, true, 0⟩

/-- Document for the C3 witness. -/
def c3doc : AppData := ⟨[], [], [c3sched], exampleSettings⟩

/-- First-run result for the C3 witness. -/
def c3out : AppData :=
  match generate_recurring_attendance_internal c3doc "2024-03-04" "2024-03-06" with
  | .ok d => d
  | .error _ => c3doc

/-- Witness for C3 at a concrete document and range. -/
theorem C3_idempotent_witness :
    generate_recurring_attendance_internal c3out "2024-03-04" "2024-03-06" = .ok c3out :=
  C3_idempotent c3doc "2024-03-04" "2024-03-06" c3out rfl

/-! Order independence of materialization. Rust compares `HashMap` values
extensionally, so "the same final document" is read as: equal lookups on
every map, recursively. -/

/-- Extensional equality of maps. -/
def hmEquiv {α : Type} (m₁ m₂ : HMap α) : Prop := ∀ k, hmGet m₁ k = hmGet m₂ k

theorem hmEquiv_refl {α : Type} (m : HMap α) : hmEquiv m m := fun _ => rfl

theorem hmEquiv_trans {α : Type} {a b c : HMap α} (h₁ : hmEquiv a b)
    (h₂ : hmEquiv b c) : hmEquiv a c := fun k => (h₁ k).trans (h₂ k)

/-- Extensional equality of day data. -/
def dayEquiv (a b : DayData) : Prop :=
  hmEquiv a.attendance.dogs b.attendance.dogs ∧
  hmEquiv a.attendance.entries b.attendance.entries ∧
  hmEquiv a.attendance.types b.attendance.types ∧
  hmEquiv a.records b.records ∧
  a.am_temp = b.am_temp ∧ a.pm_temp = b.pm_temp

theorem dayEquiv_refl (a : DayData) : dayEquiv a a :=
  ⟨hmEquiv_refl _, hmEquiv_refl _, hmEquiv_refl _, hmEquiv_refl _, rfl, rfl⟩

theorem dayEquiv_of_eq {a b : DayData} (h : a = b) : dayEquiv a b := by
  subst h
  exact dayEquiv_refl a

theorem dayEquiv_trans {a b c : DayData} (h₁ : dayEquiv a b) (h₂ : dayEquiv b c) :
    dayEquiv a c :=
  ⟨hmEquiv_trans h₁.1 h₂.1, hmEquiv_trans h₁.2.1 h₂.2.1,
    hmEquiv_trans h₁.2.2.1 h₂.2.2.1, hmEquiv_trans h₁.2.2.2.1 h₂.2.2.2.1,
    h₁.2.2.2.2.1.trans h₂.2.2.2.2.1, h₁.2.2.2.2.2.trans h₂.2.2.2.2.2⟩

/-- Lifted day equivalence on optional days. -/
def optDayEquiv : Option DayData → Option DayData → Prop
  | none, none => True
  | some a, some b => dayEquiv a b
  | _, _ => False

theorem optDayEquiv_refl (o : Option DayData) : optDayEquiv o o := by
  cases o with
  | none => trivial
  | some a => exact dayEquiv_refl a

theorem optDayEquiv_trans {a b c : Option DayData} (h₁ : optDayEquiv a b)
    (h₂ : optDayEquiv b c) : optDayEquiv a c := by
  cases a <;> cases b <;> cases c <;> first
    | trivial
    | exact dayEquiv_trans h₁ h₂
    | exact h₁.elim
    | exact h₂.elim

/-- Extensional equality of the per-date ledger map. -/
def dailyEquiv (m₁ m₂ : HMap DayData) : Prop :=
  ∀ ds, optDayEquiv (hmGet m₁ ds) (hmGet m₂ ds)

theorem dailyEquiv_refl (m : HMap DayData) : dailyEquiv m m :=
  fun ds => optDayEquiv_refl (hmGet m ds)

theorem dailyEquiv_trans {a b c : HMap DayData} (h₁ : dailyEquiv a b)
    (h₂ : dailyEquiv b c) : dailyEquiv a c :=
  fun ds => optDayEquiv_trans (h₁ ds) (h₂ ds)

theorem hmInsert_equiv {α : Type} {m₁ m₂ : HMap α} (h : hmEquiv m₁ m₂)
    (k : String) (v : α) : hmEquiv (hmInsert m₁ k v) (hmInsert m₂ k v) := by
  intro k'
  rw [hmGet_insert, hmGet_insert, h k']

theorem hmInsert_comm_equiv {α : Type} {k₁ k₂ : String} (hk : k₁ ≠ k₂)
    (m : HMap α) (v₁ v₂ : α) :
    hmEquiv (hmInsert (hmInsert m k₁ v₁) k₂ v₂) (hmInsert (hmInsert m k₂ v₂) k₁ v₁) := by
  intro k
  rw [hmGet_insert, hmGet_insert, hmGet_insert, hmGet_insert]
  by_cases h₁ : k₁ = k <;> by_cases h₂ : k₂ = k <;> simp [h₁, h₂]
  exact absurd (h₁.trans h₂.symm) hk

theorem hmContains_congr {α : Type} {m₁ m₂ : HMap α} (h : hmEquiv m₁ m₂)
    (k : String) : hmContains m₁ k = hmContains m₂ k := by
  unfold hmContains
  rw [h k]

theorem hmContains_insert_other {α : Type} (m : HMap α) {k k' : String}
    (h : k ≠ k') (v : α) : hmContains (hmInsert m k v) k' = hmContains m k' := by
  unfold hmContains
  rw [hmGet_insert_other _ _ _ _ h]

theorem getD_dayEquiv {o₁ o₂ : Option DayData} (h : optDayEquiv o₁ o₂) :
    dayEquiv (o₁.getD DayData.empty) (o₂.getD DayData.empty) := by
  cases o₁ <;> cases o₂ <;> first
    | exact dayEquiv_refl _
    | exact h
    | exact h.elim

theorem fireRec_congr {a b : DayData} {s : RecurringSchedule}
    (h : hmGet a.records s.dog_id = hmGet b.records s.dog_id) :
    fireRec s a = fireRec s b := by
  unfold fireRec
  rw [h]

theorem fireDay_congr {a b : DayData} (s : RecurringSchedule) (h : dayEquiv a b) :
    dayEquiv (fireDay s a) (fireDay s b) := by
  have hc : hmContains a.attendance.entries (schedKey s) =
      hmContains b.attendance.entries (schedKey s) := hmContains_congr h.2.1 _
  have hrec : fireRec s a = fireRec s b := fireRec_congr (h.2.2.2.1 s.dog_id)
  refine ⟨?_, ?_, ?_, ?_, ?_, ?_⟩
  · rw [fireDay_dogs, fireDay_dogs, hc]
    by_cases hcond : (!hmContains b.attendance.entries (schedKey s) &&
        decide (s.service_type = ServiceType.Daycare)) = true
    · rw [if_pos hcond, if_pos hcond]
      exact hmInsert_equiv h.1 _ _
    · rw [if_neg hcond, if_neg hcond]
      exact h.1
  · rw [fireDay_entries, fireDay_entries, hc]
    by_cases hcb : hmContains b.attendance.entries (schedKey s) = true
    · rw [if_pos hcb, if_pos hcb]
      exact h.2.1
    · rw [if_neg hcb, if_neg hcb]
      exact hmInsert_equiv h.2.1 _ _
  · rw [fireDay_types, fireDay_types]
    exact h.2.2.1
  · rw [fireDay_records, fireDay_records, hc, hrec]
    by_cases hcond : (!hmContains b.attendance.entries (schedKey s) &&
        decide (s.service_type = ServiceType.Daycare) &&
        (s.drop_off_time.isSome || s.pick_up_time.isSome)) = true
    · rw [if_pos hcond, if_pos hcond]
      exact hmInsert_equiv h.2.2.2.1 _ _
    · rw [if_neg hcond, if_neg hcond]
      exact h.2.2.2.1
  · rw [(fireDay_temps s a).1, (fireDay_temps s b).1]
    exact h.2.2.2.2.1
  · rw [(fireDay_temps s a).2, (fireDay_temps s b).2]
    exact h.2.2.2.2.2

theorem fireSchedule_congr {doc₁ doc₂ : AppData} (ds : String)
    (s : RecurringSchedule) (h : dailyEquiv doc₁.daily_data doc₂.daily_data) :
    dailyEquiv (fireSchedule ds s doc₁).daily_data (fireSchedule ds s doc₂).daily_data := by
  intro ds₀
  rw [fireSchedule_daily_get, fireSchedule_daily_get]
  by_cases hd : ds = ds₀
  · rw [if_pos hd, if_pos hd]
    exact fireDay_congr s (getD_dayEquiv (h ds))
  · rw [if_neg hd, if_neg hd]
    exact h ds₀

theorem fireDay_skip {s : RecurringSchedule} {day : DayData}
    (h : hmContains day.attendance.entries (schedKey s) = true) :
    fireDay s day = day := by
  unfold fireDay
  rw [if_pos h]

theorem contains_fireDay (s : RecurringSchedule) (day : DayData) {k : String}
    (hk : k ≠ schedKey s) :
    hmContains (fireDay s day).attendance.entries k =
      hmContains day.attendance.entries k := by
  rw [fireDay_entries]
  by_cases hc : hmContains day.attendance.entries (schedKey s) = true
  · rw [if_pos hc]
  · rw [if_neg hc]
    exact hmContains_insert_other _ (fun h => hk h.symm) _

theorem sameKey_of_daycare {x y : RecurringSchedule}
    (hx : x.service_type = ServiceType.Daycare)
    (hy : y.service_type = ServiceType.Daycare)
    (hdog : x.dog_id = y.dog_id) : schedKey x = schedKey y := by
  unfold schedKey entryKeyOf
  rw [hx, hy, hdog]

theorem fireDay_comm {x y : RecurringSchedule} (hk : schedKey x ≠ schedKey y)
    (day : DayData) :
    dayEquiv (fireDay x (fireDay y day)) (fireDay y (fireDay x day)) := by
  by_cases hcx : hmContains day.attendance.entries (schedKey x) = true
  · -- x never writes: both sides reduce to fireDay y day
    have h1 : fireDay x (fireDay y day) = fireDay y day :=
      fireDay_skip (by rw [contains_fireDay y day hk]; exact hcx)
    have h2 : fireDay x day = day := fireDay_skip hcx
    rw [h1, h2]
    exact dayEquiv_refl _
  · by_cases hcy : hmContains day.attendance.entries (schedKey y) = true
    · have h1 : fireDay y day = day := fireDay_skip hcy
      have h2 : fireDay y (fireDay x day) = fireDay x day :=
        fireDay_skip (by rw [contains_fireDay x day (Ne.symm hk)]; exact hcy)
      rw [h1, h2]
      exact dayEquiv_refl _
    · -- both insert
      have hcxy : hmContains (fireDay y day).attendance.entries (schedKey x) = false := by
        rw [contains_fireDay y day hk]
        simpa using hcx
      have hcyx : hmContains (fireDay x day).attendance.entries (schedKey y) = false := by
        rw [contains_fireDay x day (Ne.symm hk)]
        simpa using hcy
      have hcxF : hmContains day.attendance.entries (schedKey x) = false := by
        simpa using hcx
      have hcyF : hmContains day.attendance.entries (schedKey y) = false := by
        simpa using hcy
      refine ⟨?_, ?_, ?_, ?_, ?_, ?_⟩
      · -- legacy dogs map
        rw [fireDay_dogs x (fireDay y day), fireDay_dogs y (fireDay x day),
          hcxy, hcyx, fireDay_dogs y day, fireDay_dogs x day,
          hcxF, hcyF]
        simp only [Bool.not_false, Bool.true_and]
        by_cases hx : decide (x.service_type = ServiceType.Daycare) = true <;>
          by_cases hy : decide (y.service_type = ServiceType.Daycare) = true <;>
            simp only [hx, hy, if_true, if_false, if_pos, if_neg, eq_self_iff_true,
              not_true, not_false_iff]
        · by_cases hdog : x.dog_id = y.dog_id
          · rw [hdog]
            exact hmEquiv_refl _
          · exact hmInsert_comm_equiv (fun h => hdog h.symm) _ _ _
        · exact hmEquiv_refl _
        · exact hmEquiv_refl _
        · exact hmEquiv_refl _
      · -- entries
        rw [fireDay_entries x (fireDay y day), fireDay_entries y (fireDay x day),
          hcxy, hcyx, fireDay_entries y day, fireDay_entries x day]
        rw [if_neg hcx, if_neg hcy]
        simp only [Bool.false_eq_true, if_false]
        exact hmInsert_comm_equiv (fun h => hk h.symm) _ _ _
      · -- attendance types
        rw [fireDay_types, fireDay_types, fireDay_types, fireDay_types]
        exact hmEquiv_refl _
      · -- daily records
        rw [fireDay_records x (fireDay y day), fireDay_records y (fireDay x day),
          hcxy, hcyx]
        simp only [Bool.not_false, Bool.true_and]
        by_cases hxw : (decide (x.service_type = ServiceType.Daycare) &&
            (x.drop_off_time.isSome || x.pick_up_time.isSome)) = true <;>
          by_cases hyw : (decide (y.service_type = ServiceType.Daycare) &&
              (y.drop_off_time.isSome || y.pick_up_time.isSome)) = true
        · -- both write a record; their dogs must differ
          have hxD : x.service_type = ServiceType.Daycare := by
            rcases Bool.and_eq_true .. |>.mp hxw with ⟨h1, -⟩
            simpa using h1
          have hyD : y.service_type = ServiceType.Daycare := by
            rcases Bool.and_eq_true .. |>.mp hyw with ⟨h1, -⟩
            simpa using h1
          have hdog : x.dog_id ≠ y.dog_id := by
            intro hdog
            exact hk (sameKey_of_daycare hxD hyD hdog)
          rw [if_pos hxw, if_pos hyw]
          rw [fireDay_records y day, fireDay_records x day, hcxF, hcyF]
          simp only [Bool.not_false, Bool.true_and]
          rw [if_pos hxw, if_pos hyw]
          have hrx : fireRec x (fireDay y day) = fireRec x day := by
            refine fireRec_congr ?_
            rw [fireDay_records y day, hcyF]
            simp only [Bool.not_false, Bool.true_and]
            rw [if_pos hyw, hmGet_insert_other _ _ _ _ (fun h => hdog h.symm)]
          have hry : fireRec y (fireDay x day) = fireRec y day := by
            refine fireRec_congr ?_
            rw [fireDay_records x day, hcxF]
            simp only [Bool.not_false, Bool.true_and]
            rw [if_pos hxw, hmGet_insert_other _ _ _ _ hdog]
          rw [hrx, hry]
          exact hmInsert_comm_equiv (Ne.symm hdog) _ _ _
        · -- only x writes
          rw [if_pos hxw, if_neg hyw]
          rw [fireDay_records y day, fireDay_records x day, hcxF, hcyF]
          simp only [Bool.not_false, Bool.true_and]
          rw [if_pos hxw, if_neg hyw]
          have hrx : fireRec x (fireDay y day) = fireRec x day := by
            refine fireRec_congr ?_
            rw [fireDay_records y day, hcyF]
            simp only [Bool.not_false, Bool.true_and]
            rw [if_neg hyw]
          rw [hrx]
          exact hmEquiv_refl _
        · -- only y writes
          rw [if_neg hxw, if_pos hyw]
          rw [fireDay_records y day, fireDay_records x day, hcxF, hcyF]
          simp only [Bool.not_false, Bool.true_and]
          rw [if_neg hxw, if_pos hyw]
          have hry : fireRec y (fireDay x day) = fireRec y day := by
            refine fireRec_congr ?_
            rw [fireDay_records x day, hcxF]
            simp only [Bool.not_false, Bool.true_and]
            rw [if_neg hxw]
          rw [hry]
          exact hmEquiv_refl _
        · rw [if_neg hxw, if_neg hyw]
          rw [fireDay_records y day, fireDay_records x day, hcxF, hcyF]
          simp only [Bool.not_false, Bool.true_and]
          rw [if_neg hxw, if_neg hyw]
          exact hmEquiv_refl _
      · rw [(fireDay_temps x (fireDay y day)).1, (fireDay_temps y day).1,
          (fireDay_temps y (fireDay x day)).1, (fireDay_temps x day).1]
      · rw [(fireDay_temps x (fireDay y day)).2, (fireDay_temps y day).2,
          (fireDay_temps y (fireDay x day)).2, (fireDay_temps x day).2]

theorem fireSchedule_comm {x y : RecurringSchedule} (hk : schedKey x ≠ schedKey y)
    (ds : String) (doc : AppData) :
    dailyEquiv (fireSchedule ds x (fireSchedule ds y doc)).daily_data
      (fireSchedule ds y (fireSchedule ds x doc)).daily_data := by
  intro ds₀
  by_cases hd : ds = ds₀
  · subst hd
    simp only [fireSchedule_daily_get, if_pos (Eq.refl ds), Option.getD_some]
    exact fireDay_comm hk _
  · simp only [fireSchedule_daily_get, if_neg hd]
    exact optDayEquiv_refl _

/-- Result equivalence for materialization stages: both fail, or both succeed
with extensionally equal ledgers. -/
def ExcDailyEquiv : Except String AppData → Except String AppData → Prop
  | .ok a, .ok b => dailyEquiv a.daily_data b.daily_data
  | .error _, .error _ => True
  | _, _ => False

theorem ExcDailyEquiv_trans {a b c : Except String AppData}
    (h₁ : ExcDailyEquiv a b) (h₂ : ExcDailyEquiv b c) : ExcDailyEquiv a c := by
  cases a <;> cases b <;> cases c <;> first
    | trivial
    | exact dailyEquiv_trans h₁ h₂
    | exact h₁.elim
    | exact h₂.elim

theorem processSchedule_equiv (cur : Date) (ds : String) (s : RecurringSchedule)
    {doc₁ doc₂ : AppData} (h : dailyEquiv doc₁.daily_data doc₂.daily_data) :
    ExcDailyEquiv (processSchedule cur ds doc₁ s) (processSchedule cur ds doc₂ s) := by
  rw [processSchedule_eq, processSchedule_eq]
  by_cases hb : schedBad cur s = true
  · rw [if_pos hb, if_pos hb]
    trivial
  · rw [if_neg hb, if_neg hb]
    by_cases hf : schedFires cur s = true
    · rw [if_pos hf, if_pos hf]
      exact fireSchedule_congr ds s h
    · rw [if_neg hf, if_neg hf]
      exact h

theorem processDate_congr (cur : Date) (ds : String) (l : List RecurringSchedule)
    {doc₁ doc₂ : AppData} (h : dailyEquiv doc₁.daily_data doc₂.daily_data) :
    ExcDailyEquiv (processDate cur ds l doc₁) (processDate cur ds l doc₂) := by
  induction l generalizing doc₁ doc₂ with
  | nil => exact h
  | cons s rest ih =>
    unfold processDate
    have hs := processSchedule_equiv cur ds s h
    cases h₁ : processSchedule cur ds doc₁ s with
    | error e =>
      cases h₂ : processSchedule cur ds doc₂ s with
      | error e' => trivial
      | ok d₂ =>
        rw [h₁, h₂] at hs
        exact hs.elim
    | ok d₁ =>
      cases h₂ : processSchedule cur ds doc₂ s with
      | error e' =>
        rw [h₁, h₂] at hs
        exact hs.elim
      | ok d₂ =>
        rw [h₁, h₂] at hs
        exact ih hs

/-- Distinctness hypothesis for schedule pairs: two active schedules never
share the (dog id, service type) entry key. -/
def keyDistinct (a b : RecurringSchedule) : Prop :=
  a.active = true → b.active = true → schedKey a ≠ schedKey b

theorem keyDistinct_symm : ∀ {a b : RecurringSchedule},
    keyDistinct a b → keyDistinct b a :=
  fun h hb ha hkey => (h ha hb) hkey.symm

theorem fires_active {cur : Date} {s : RecurringSchedule}
    (h : schedFires cur s = true) : s.active = true := by
  unfold schedFires at h
  exact (Bool.and_eq_true .. |>.mp h).1

theorem processDate_perm (cur : Date) (ds : String) {l₁ l₂ : List RecurringSchedule}
    (hperm : l₁.Perm l₂) :
    l₁.Pairwise keyDistinct →
    ∀ {doc₁ doc₂ : AppData}, dailyEquiv doc₁.daily_data doc₂.daily_data →
      ExcDailyEquiv (processDate cur ds l₁ doc₁) (processDate cur ds l₂ doc₂) := by
  induction hperm with
  | nil =>
    intro _ doc₁ doc₂ h
    exact h
  | cons x hp ih =>
    intro hpw doc₁ doc₂ h
    have hpw' := (List.pairwise_cons.mp hpw).2
    unfold processDate
    have hs := processSchedule_equiv cur ds x h
    cases h₁ : processSchedule cur ds doc₁ x with
    | error e =>
      cases h₂ : processSchedule cur ds doc₂ x with
      | error e' => trivial
      | ok d₂ =>
        rw [h₁, h₂] at hs
        exact hs.elim
    | ok d₁ =>
      cases h₂ : processSchedule cur ds doc₂ x with
      | error e' =>
        rw [h₁, h₂] at hs
        exact hs.elim
      | ok d₂ =>
        rw [h₁, h₂] at hs
        exact ih hpw' hs
  | swap a b l =>
    intro hpw doc₁ doc₂ h
    have hab : keyDistinct b a := (List.pairwise_cons.mp hpw).1 a (by simp)
    simp only [processDate]
    rw [processSchedule_eq cur ds doc₁ b, processSchedule_eq cur ds doc₂ a]
    by_cases hbb : schedBad cur b = true
    · rw [if_pos hbb]
      dsimp only
      by_cases hba : schedBad cur a = true
      · rw [if_pos hba]
        dsimp only
        trivial
      · rw [if_neg hba]
        dsimp only
        rw [processSchedule_eq, if_pos hbb]
        dsimp only
        trivial
    · rw [if_neg hbb]
      dsimp only
      by_cases hba : schedBad cur a = true
      · rw [if_pos hba]
        dsimp only
        rw [processSchedule_eq, if_pos hba]
        dsimp only
        trivial
      · rw [if_neg hba]
        dsimp only
        rw [processSchedule_eq, if_neg hba, processSchedule_eq, if_neg hbb]
        dsimp only
        by_cases hfb : schedFires cur b = true <;> by_cases hfa : schedFires cur a = true
        · simp only [if_pos hfb, if_pos hfa]
          refine processDate_congr cur ds l ?_
          have hkey : schedKey a ≠ schedKey b :=
            keyDistinct_symm hab (fires_active hfa) (fires_active hfb)
          exact dailyEquiv_trans
            (fireSchedule_congr ds a (fireSchedule_congr ds b h))
            (fireSchedule_comm hkey ds doc₂)
        · simp only [if_pos hfb, if_neg hfa]
          exact processDate_congr cur ds l (fireSchedule_congr ds b h)
        · simp only [if_neg hfb, if_pos hfa]
          exact processDate_congr cur ds l (fireSchedule_congr ds a h)
        · simp only [if_neg hfb, if_neg hfa]
          exact processDate_congr cur ds l h
  | trans h₁₂ h₂₃ ih₁ ih₂ =>
    intro hpw doc₁ doc₂ h
    have hpw₂ := (h₁₂.pairwise_iff @keyDistinct_symm).mp hpw
    exact ExcDailyEquiv_trans (ih₁ hpw (dailyEquiv_refl _)) (ih₂ hpw₂ h)

theorem genLoop_perm {fuel : Nat} {cur e : Date} {doc₁ doc₂ d₁ d₂ : AppData}
    (hperm : doc₁.recurring_schedules.Perm doc₂.recurring_schedules)
    (hpw : doc₁.recurring_schedules.Pairwise keyDistinct)
    (heq : dailyEquiv doc₁.daily_data doc₂.daily_data)
    (h₁ : genLoop fuel cur e doc₁ = .ok d₁) (h₂ : genLoop fuel cur e doc₂ = .ok d₂) :
    dailyEquiv d₁.daily_data d₂.daily_data := by
  induction fuel generalizing cur doc₁ doc₂ with
  | zero =>
    unfold genLoop at h₁ h₂
    cases h₁
    cases h₂
    exact heq
  | succ fuel' ih =>
    unfold genLoop at h₁ h₂
    by_cases hle : dateLe cur e = true
    · rw [if_pos hle] at h₁ h₂
      cases hpd₁ : processDate cur (formatDate cur) doc₁.recurring_schedules doc₁ with
      | error err => rw [hpd₁] at h₁; cases h₁
      | ok d₁' =>
        rw [hpd₁] at h₁
        cases hpd₂ : processDate cur (formatDate cur) doc₂.recurring_schedules doc₂ with
        | error err => rw [hpd₂] at h₂; cases h₂
        | ok d₂' =>
          rw [hpd₂] at h₂
          have hx := processDate_perm cur (formatDate cur) hperm hpw heq
          rw [hpd₁, hpd₂] at hx
          have hs₁ := (processDate_frame hpd₁).2.1
          have hs₂ := (processDate_frame hpd₂).2.1
          refine ih ?_ ?_ hx h₁ h₂
          · rw [hs₁, hs₂]
            exact hperm
          · rw [hs₁]
            exact hpw
    · rw [if_neg hle] at h₁ h₂
      cases h₁
      cases h₂
      exact heq

/-- C6 (amended): permuting the recurring-schedules list before materializing
yields the SAME LEDGER — the daily data compared extensionally, as Rust
compares HashMaps — provided no two active schedules share the (dog id,
service type) entry key; dogs and settings are equal outright, and the
schedule lists themselves remain the given permutation of each other. The
distinctness proviso is necessary: with two active Daycare schedules for one
dog, the first one processed wins (see the counterexample). -/
theorem C6_order_independence_amended (doc : AppData)
    (l₂ : List RecurringSchedule) (sd ed : String) (d₁ d₂ : AppData)
    (hperm : doc.recurring_schedules.Perm l₂)
    (hpw : doc.recurring_schedules.Pairwise keyDistinct)
    (h₁ : generate_recurring_attendance_internal doc sd ed = .ok d₁)
    (h₂ : generate_recurring_attendance_internal
      { doc with recurring_schedules := l₂ } sd ed = .ok d₂) :
    dailyEquiv d₁.daily_data d₂.daily_data ∧ d₁.dogs = d₂.dogs ∧
      d₁.settings = d₂.settings ∧ d₁.recurring_schedules.Perm d₂.recurring_schedules := by
  have hf₁ := genInternal_frame h₁
  have hf₂ := genInternal_frame h₂
  refine ⟨?_, by rw [hf₁.1, hf₂.1], by rw [hf₁.2.2, hf₂.2.2], ?_⟩
  · unfold generate_recurring_attendance_internal at h₁ h₂
    cases hs : parseDate sd with
    | none => rw [hs] at h₁; cases h₁
    | some s =>
      rw [hs] at h₁ h₂
      dsimp only at h₁ h₂
      cases he : parseDate ed with
      | none => rw [he] at h₁; cases h₁
      | some e =>
        rw [he] at h₁ h₂
        dsimp only at h₁ h₂
        have hperm' : doc.recurring_schedules.Perm
            ({ doc with recurring_schedules := l₂ } : AppData).recurring_schedules := hperm
        exact genLoop_perm hperm' hpw (dailyEquiv_refl _) h₁ h₂
  · rw [hf₁.2.1, hf₂.2.1]
    exact hperm

/-- First schedule of the C6 counterexample: Daycare for dogA, drop-off
09:00. -/
def c6schedA : RecurringSchedule :=
  ⟨"s1", "dogA", .Daycare, .Daily, "2024-03-04", none, some "09:00", none, true, 0⟩

/-- Second schedule of the C6 counterexample: same (dog, service) key,
drop-off 10:00. -/
def c6schedB : RecurringSchedule :=
  ⟨"s2", "dogA", .Daycare, .Daily, "2024-03-04", none, some "10:00", none, true, 0⟩

/-- Counterexample document, order A then B. -/
def c6docAB : AppData := ⟨[], [], [c6schedA, c6schedB], exampleSettings⟩

/-- Counterexample document, order B then A. -/
def c6docBA : AppData := ⟨[], [], [c6schedB, c6schedA], exampleSettings⟩

/-- C6 counterexample: with two active schedules sharing the (dog, service)
key, iteration order changes the materialized ledger: the entry's drop-off
time is 09:00 under one order and 10:00 under the other, so permuting the
schedules does not yield the same final document. -/
theorem C6_order_counterexample :
    c6docAB.recurring_schedules.Perm c6docBA.recurring_schedules ∧
    ((generate_recurring_attendance_internal c6docAB "2024-03-04" "2024-03-04").map
      (fun d => (hmGet d.daily_data "2024-03-04").map
        (fun day => (hmGet day.attendance.entries "dogA_Daycare").map
          (fun en => en.drop_off_time))) = .ok (some (some (some "09:00")))) ∧
    ((generate_recurring_attendance_internal c6docBA "2024-03-04" "2024-03-04").map
      (fun d => (hmGet d.daily_data "2024-03-04").map
        (fun day => (hmGet day.attendance.entries "dogA_Daycare").map
          (fun en => en.drop_off_time))) = .ok (some (some (some "10:00")))) ∧
    (some (some (some "09:00")) : Option (Option (Option String))) ≠
      some (some (some "10:00")) := by
  exact ⟨List.Perm.swap c6schedB c6schedA [], rfl, rfl, by decide⟩

/-- Daycare schedule for dogB, used by the C6 witness. -/
def c6schedC : RecurringSchedule :=
  ⟨"s3", "dogB", .Daycare, .Daily, "2024-03-04", none, some "10:00", none, true, 0⟩

/-- Witness document with distinct-key schedules, order A then C. -/
def c6docAC : AppData := ⟨[], [], [c6schedA, c6schedC], exampleSettings⟩

/-- First-order run of the witness document. -/
def c6outAC : AppData :=
  match generate_recurring_attendance_internal c6docAC "2024-03-04" "2024-03-04" with
  | .ok d => d
  | .error _ => c6docAC

/-- Swapped-order run of the witness document. -/
def c6outCA : AppData :=
  match generate_recurring_attendance_internal
    { c6docAC with recurring_schedules := [c6schedC, c6schedA] } "2024-03-04" "2024-03-04" with
  | .ok d => d
  | .error _ => c6docAC

/-- Witness for the amended C6 at a concrete pair of runs. -/
theorem C6_order_independence_amended_witness :
    dailyEquiv c6outAC.daily_data c6outCA.daily_data ∧
      c6outAC.dogs = c6outCA.dogs ∧ c6outAC.settings = c6outCA.settings ∧
      c6outAC.recurring_schedules.Perm c6outCA.recurring_schedules :=
  C6_order_independence_amended c6docAC [c6schedC, c6schedA] "2024-03-04" "2024-03-04"
    c6outAC c6outCA (List.Perm.swap c6schedC c6schedA [])
    (by
      refine List.Pairwise.cons ?_ (List.pairwise_singleton _ _)
      intro s hs
      rw [List.mem_singleton] at hs
      subst hs
      intro _ _
      decide)
    rfl rfl

/-- Dog used by the C9 witness; the stored document does not contain it. -/
def c9dog : Dog :=
  ⟨"ghost", "Ghost", "o", "p", "e", "b", none, none, none, 0, DogSchedule.default, none⟩

/-- Witness for C9: `update_dog` on an unknown id leaves the stored document
unchanged. -/
theorem C9_mutation_atomicity_witness :
    with_app_data_mut emptyDoc (update_dog ⟨2024, 1, 1⟩ (fun _ => "fresh") 0 c9dog) =
      (.error "Dog not found", emptyDoc) :=
  C9_mutation_atomicity.2.1 emptyDoc ⟨2024, 1, 1⟩ (fun _ => "fresh") 0 c9dog rfl

end DoggyDaycare
